import Mathlib

/-!
# Promscale ingest core: catalog batcher and metric batcher

A shallow embedding of

* `pkg/pgmodel/ingestor/trace/batch.go` (the generic catalog batcher),
* `pkg/pgmodel/ingestor/trace/schema_url_batch.go`,
  `operation_batch.go`, `instrumentation_lib_batch.go` (its typed façades),
* `pkg/pgmodel/ingestor/metric_batcher.go` (the per-metric worker),
* `pkg/bench/runner.go` (the replay driver),

followed by theorems about the embedded functions.

Conventions of the embedding.

* A Go `string` is its sequence of bytes (`GoString`); Go's `<` on strings is
  the lexicographic order on those bytes.
* A Go `map` is an association list with pairwise distinct keys; the order of
  the list is the order in which one `range` loop visits the map, and the
  theorems hold for every such order.
* Effects on collaborators that are not part of these files (the database
  connection, the clock cache, channels) are passed in as explicit inputs
  and returned as explicit logs.
-/

namespace Promscale

/-! ## Go strings and errors -/

/-- A Go string: an immutable sequence of bytes. -/
abbrev GoString := List (Fin 256)

/-- The bytes of an ASCII literal, used to write concrete inputs legibly
(`ascii "a" = [97]`). -/
def ascii (s : String) : GoString := s.toList.map (fun c => Fin.ofNat c.toNat)

/-- A Go `error` value that is not nil (a nil error is `none : Option GoError`).
`msg` is `fmt.Errorf` without `%w`, `wrap` is `fmt.Errorf("...%w", ..., err)`
(the format string is kept, the formatted operands are not), `sentinel` is a
package-level error variable such as `errors.ErrMissingTableName`, and
`external` is an error produced by a collaborator (database, cache). -/
inductive GoError where
  | msg (text : String)
  | wrap (format : String) (cause : GoError)
  | sentinel (name : String)
  | external (code : Nat)
  deriving DecidableEq, Repr

/-! ## pgtype.Int8 -/

namespace pgtype

/-- The type `pgtype.Status`, a `byte`. -/
abbrev Status := Fin 256

/-- The constant `pgtype.Undefined`. -/
def Undefined : Status := 0
/-- The constant `pgtype.Null`. -/
def Null : Status := 1
/-- The constant `pgtype.Present`. -/
def Present : Status := 2

/-- The struct `pgtype.Int8`; a field left out of a Go composite literal is
zero. -/
structure Int8 where
  Int : ℤ := 0
  Status : Status := 0
  deriving DecidableEq, Repr

end pgtype

/-! ## The catalog items (`queable` implementations) -/

/-- The struct `operation` of `operation_batch.go`. -/
structure operation where
  serviceName : GoString
  spanName : GoString
  spanKind : GoString
  deriving DecidableEq, Repr

/-- The struct `instrumentationLibrary` of `instrumentation_lib_batch.go`. -/
structure instrumentationLibrary where
  name : GoString
  version : GoString
  schemaURLID : pgtype.Int8
  deriving DecidableEq, Repr

/-- A value of the interface `queable`: its dynamic type and its value.  The
three implementations found in the embedded files are the variants. -/
inductive queable where
  | schemaURL (s : GoString)
  | operation (o : operation)
  | instrumentationLibrary (il : instrumentationLibrary)
  deriving DecidableEq, Repr

/-- The dynamic type of a `queable`, as a tag. -/
def queable.variant : queable → Nat
  | .schemaURL _ => 0
  | .operation _ => 1
  | .instrumentationLibrary _ => 2

/-- Method `schemaURL.Before`: the type assertion `url.(schemaURL)` and then `s < u`. -/
def schemaURL.Before (s : GoString) (url : queable) : Bool :=
  match url with
  | .schemaURL u => decide (s < u)
  | _ => false

/-- Method `operation.Before`. -/
def operation.Before (o : operation) (item : queable) : Bool :=
  match item with
  | .operation otherOp =>
    if o.serviceName ≠ otherOp.serviceName then
      decide (o.serviceName < otherOp.serviceName)
    else if o.spanName ≠ otherOp.spanName then
      decide (o.spanName < otherOp.spanName)
    else
      decide (o.spanKind < otherOp.spanKind)
  | _ => false

/-- Method `instrumentationLibrary.Before`. -/
def instrumentationLibrary.Before (il : instrumentationLibrary) (item : queable) : Bool :=
  match item with
  | .instrumentationLibrary otherIl =>
    if il.name ≠ otherIl.name then
      decide (il.name < otherIl.name)
    else if il.version ≠ otherIl.version then
      decide (il.version < otherIl.version)
    else if il.schemaURLID.Status ≠ otherIl.schemaURLID.Status then
      decide (il.schemaURLID.Status < otherIl.schemaURLID.Status)
    else
      decide (il.schemaURLID.Int < otherIl.schemaURLID.Int)
  | _ => false

/-- The interface method `queable.Before`, dispatched on the receiver. -/
def queable.Before (a b : queable) : Bool :=
  match a with
  | .schemaURL s => schemaURL.Before s b
  | .operation o => operation.Before o b
  | .instrumentationLibrary il => instrumentationLibrary.Before il b

/-- Method `SizeInCache` of the three implementations (`uint64` arithmetic). -/
def queable.SizeInCache : queable → Nat
  | .schemaURL s => (s.length + 9) % 2 ^ 64
  | .operation o =>
    (o.serviceName.length + o.spanName.length + o.spanKind.length + 9) % 2 ^ 64
  | .instrumentationLibrary il => (il.name.length + il.version.length + 18) % 2 ^ 64

/-- One bound argument of a statement (an `interface{}` in `args`). -/
inductive Arg where
  | schemaURL (s : GoString)
  | string (s : GoString)
  | int8 (id : pgtype.Int8)
  deriving DecidableEq, Repr

/-- Method `Queries` of the three implementations: the SQL texts and, in a
parallel slice, their arguments.  `TracePublic` is the constant
`schema.TracePublic`, whose package is not among the embedded files; it is a
parameter. -/
def queable.Queries (TracePublic : String) : queable → List String × List (List Arg)
  | .schemaURL s =>
    (["SELECT " ++ TracePublic ++ ".put_schema_url($1)"], [[.schemaURL s]])
  | .operation o =>
    (["SELECT " ++ TracePublic ++ ".put_operation($1, $2, $3)"],
      [[.string o.serviceName, .string o.spanName, .string o.spanKind]])
  | .instrumentationLibrary il =>
    (["SELECT " ++ TracePublic ++ ".put_instrumentation_lib($1, $2, $3)"],
      [[.string il.name, .string il.version, .int8 il.schemaURLID]])

/-! ## Collaborators: interface values, the database connection, the cache -/

/-- A Go `interface{}` as held in the batcher's map and in the cache: nil, a
`pgtype.Int8`, or a value of some other dynamic type. -/
inductive Value where
  | nil
  | int8 (id : pgtype.Int8)
  | other (tag : Nat)
  deriving DecidableEq, Repr

/-- One statement queued on a `pgx.Batch` by `dbBatch.Queue(sql, args...)`. -/
structure Stmt where
  sql : String
  args : List Arg
  deriving DecidableEq, Repr

/-- A `pgx.BatchResults`: `rows k` is what the `k`-th `QueryRow().Scan(&id)` on
it leaves in `id` and returns, `next` counts the rows consumed so far, and
`closeErr` is what `Close()` returns. -/
structure BatchResults where
  rows : Nat → pgtype.Int8 × Option GoError
  next : Nat
  closeErr : Option GoError

/-- A `pgxconn.PgxConn` as the batcher uses it: `SendBatch` answers a batch
of statements with an error or with its results. -/
structure PgxConn where
  SendBatch : List Stmt → Except GoError BatchResults

/-- Method `Result`, the same in the three implementations: scan one row into
a `pgtype.Int8` and return it with the scan error. -/
def queable.Result (_item : queable) (r : BatchResults) :
    (Value × Option GoError) × BatchResults :=
  let (id, err) := r.rows r.next
  ((.int8 id, err), { r with next := r.next + 1 })

/-- Modelled from the spec: the clock cache of `pkg/clockcache`, which is not
among the embedded files.  It is a mapping from key to value, given by its
entries; `Get` returns the value and whether the key was found.  `Insert`
may evict other entries, so the batcher's `Insert` calls are logged rather
than applied. -/
structure clockcache.Cache where
  entries : List (queable × Value)
  deriving DecidableEq, Repr

/-- Modelled from the spec: `Get(key) -> (value, hit)`. -/
def clockcache.Cache.Get (c : clockcache.Cache) (key : queable) : Option Value :=
  c.entries.lookup key

/-- One call `cache.Insert(key, value, size)`. -/
structure CacheInsert where
  key : queable
  value : Value
  size : Nat
  deriving DecidableEq, Repr

/-! ## The batcher (`batch.go`) -/

/-- The Go map `map[queable]interface{}`: its entries in the order in which a
`range` loop visits them. -/
abbrev GoMap := List (queable × Value)

/-- The keys of a map, in iteration order. -/
def GoMap.keys (m : GoMap) : List queable := m.map Prod.fst

/-- The map read `entry, ok := m[k]`. -/
def GoMap.get : GoMap → queable → Option Value
  | [], _ => none
  | (k', v) :: rest, k => if k' = k then some v else GoMap.get rest k

/-- The map write `m[k] = v`: the entry of `k` is overwritten, or a new entry
is added. -/
def GoMap.set : GoMap → queable → Value → GoMap
  | [], k, v => [(k, v)]
  | (k', v') :: rest, k, v =>
    if k' = k then (k, v) :: rest else (k', v') :: GoMap.set rest k v

/-- The struct `batcher`.  Its map is a reference, so what a method with a
value receiver writes to it is seen by the caller: the methods that write
return the batcher.  The `cache` pointer is passed to `SendBatch` as the
state of the cache at the call. -/
structure batcher where
  batch : GoMap
  deriving DecidableEq, Repr

/-- Function `newBatcher`. -/
def newBatcher : batcher := { batch := [] }

/-- Method `batcher.Queue`. -/
def batcher.Queue (b : batcher) (i : queable) : batcher :=
  { batch := b.batch.set i .nil }

/-- Insertion of one item into a sorted slice, comparing with
`queables.Less`, that is, `q[i].Before(q[j])`. -/
def orderedInsert (x : queable) : List queable → List queable
  | [] => [x]
  | y :: ys => if x.Before y then x :: y :: ys else y :: orderedInsert x ys

/-- The call `sort.Sort(queables(batch))` of the Go standard library, as an
insertion sort with `queables.Less`.  On distinct keys of one variant, which
`Before` orders strictly and totally, every sorting algorithm returns the same
slice (`sortSort_unique`). -/
def sortSort (l : List queable) : List queable := l.foldr orderedInsert []

/-- The first loop of `SendBatch`, one iteration: probe the cache for `q`; a
miss is appended to the slice `batch`, a hit is written to the map. -/
def probeStep (cache : clockcache.Cache) (st : GoMap × List queable) (q : queable) :
    GoMap × List queable :=
  match cache.Get q with
  | none => (st.1, st.2 ++ [q])
  | some id => (st.1.set q id, st.2)

/-- The loop `for _, item := range batch` that queues each item's statements:
`dbBatch.Queue(sql, args[i]...)` for each `sql` of `item.Queries()`. -/
def enqueue (TracePublic : String) (item : queable) : List Stmt :=
  let (sqls, args) := item.Queries TracePublic
  List.zipWith (fun sql a => { sql := sql, args := a }) sqls args

/-- What the result loop of `SendBatch` has done when it ends. -/
structure ResultLoop where
  batch : GoMap
  inserted : List CacheInsert
  br : BatchResults
  err : Option GoError

/-- The last loop of `SendBatch`: one `Result` per item, in slice order; the
first error ends the loop, otherwise the id is stored in the map and inserted
into the cache. -/
def resultLoop : List queable → ResultLoop → ResultLoop
  | [], st => st
  | item :: rest, st =>
    let ((id, err), br) := item.Result st.br
    match err with
    | some e => { st with br := br, err := some e }
    | none =>
      resultLoop rest
        { st with
          batch := st.batch.set item id
          inserted := st.inserted ++ [{ key := item, value := id, size := item.SizeInCache }]
          br := br }

/-- What one call of `batcher.SendBatch` leaves behind: the batcher's map, the
`cache.Insert` calls made, the batches handed to `conn.SendBatch` (none or
one), and the returned error. -/
structure SendBatchResult where
  b : batcher
  inserted : List CacheInsert
  sent : List (List Stmt)
  err : Option GoError

/-- Method `batcher.SendBatch`. -/
def batcher.SendBatch (TracePublic : String) (b : batcher) (cache : clockcache.Cache)
    (conn : PgxConn) : SendBatchResult :=
  let probed := b.batch.keys.foldl (probeStep cache) (b.batch, [])
  let i := probed.2.length
  if i = 0 then
    { b := { batch := probed.1 }, inserted := [], sent := [], err := none }
  else
    let batch := sortSort probed.2
    let dbBatch := batch.flatMap (enqueue TracePublic)
    match conn.SendBatch dbBatch with
    | .error err =>
      { b := { batch := probed.1 }, inserted := [], sent := [dbBatch], err := some err }
    | .ok br =>
      let r := resultLoop batch { batch := probed.1, inserted := [], br := br, err := none }
      -- the deferred function: the Close error is returned only if there was none before
      let err := match r.err with
        | some e => some e
        | none => r.br.closeErr
      { b := { batch := r.batch }, inserted := r.inserted, sent := [dbBatch], err := err }

/-- The variable `errors.ErrInvalidCacheEntryType`. -/
def errors.ErrInvalidCacheEntryType : GoError := .sentinel "ErrInvalidCacheEntryType"

/-- Method `batcher.GetInt8`. -/
def batcher.GetInt8 (b : batcher) (i : queable) : pgtype.Int8 × Option GoError :=
  match b.batch.get i with
  | none => ({ Status := pgtype.Null }, some (.msg "error getting ID from batch"))
  | some entry =>
    match entry with
    | .int8 id =>
      if id.Status ≠ pgtype.Present then
        ({ Status := pgtype.Null }, some (.msg "ID is null"))
      else if id.Int = 0 then
        ({ Status := pgtype.Null }, some (.msg "ID is 0"))
      else
        (id, none)
    | _ => ({ Status := pgtype.Null }, some errors.ErrInvalidCacheEntryType)

/-- Method `batcher.Get`. -/
def batcher.Get (b : batcher) (i : queable) : Value × Option GoError :=
  match b.batch.get i with
  | none => (.nil, some (.msg "error getting item from batch"))
  | some entry => (entry, none)

/-! ## The typed façades -/

/-- The struct `schemaURLBatch`. -/
structure schemaURLBatch where
  b : batcher
  deriving DecidableEq, Repr

/-- Function `newSchemaUrlBatch`. -/
def newSchemaUrlBatch : schemaURLBatch := { b := newBatcher }

/-- Method `schemaURLBatch.Queue`. -/
def schemaURLBatch.Queue (s : schemaURLBatch) (url : GoString) : schemaURLBatch :=
  if url = [] then s
  else { b := s.b.Queue (.schemaURL url) }

/-- Method `schemaURLBatch.SendBatch`. -/
def schemaURLBatch.SendBatch (TracePublic : String) (s : schemaURLBatch)
    (cache : clockcache.Cache) (conn : PgxConn) : SendBatchResult :=
  s.b.SendBatch TracePublic cache conn

/-- Method `schemaURLBatch.GetID`. -/
def schemaURLBatch.GetID (s : schemaURLBatch) (url : GoString) :
    pgtype.Int8 × Option GoError :=
  if url = [] then ({ Status := pgtype.Null }, none)
  else
    match s.b.GetInt8 (.schemaURL url) with
    | (_, some err) =>
      ({ Status := pgtype.Null }, some (.wrap "error getting ID for schema url %s: %w" err))
    | (id, none) => (id, none)

/-- The struct `operationBatch`. -/
structure operationBatch where
  b : batcher
  deriving DecidableEq, Repr

/-- Function `newOperationBatch`. -/
def newOperationBatch : operationBatch := { b := newBatcher }

/-- Method `operationBatch.Queue`. -/
def operationBatch.Queue (o : operationBatch) (serviceName spanName spanKind : GoString) :
    operationBatch :=
  { b := o.b.Queue (.operation { serviceName := serviceName, spanName := spanName,
                                  spanKind := spanKind }) }

/-- Method `operationBatch.SendBatch`. -/
def operationBatch.SendBatch (TracePublic : String) (o : operationBatch)
    (cache : clockcache.Cache) (conn : PgxConn) : SendBatchResult :=
  o.b.SendBatch TracePublic cache conn

/-- Method `operationBatch.GetID`. -/
def operationBatch.GetID (o : operationBatch) (serviceName spanName spanKind : GoString) :
    pgtype.Int8 × Option GoError :=
  match o.b.GetInt8 (.operation { serviceName := serviceName, spanName := spanName,
                                   spanKind := spanKind }) with
  | (_, some err) =>
    ({ Status := pgtype.Null }, some (.wrap "error getting ID for operation %v: %w" err))
  | (id, none) => (id, none)

/-- The struct `instrumentationLibraryBatch`. -/
structure instrumentationLibraryBatch where
  b : batcher
  deriving DecidableEq, Repr

/-- Function `newInstrumentationLibraryBatch`. -/
def newInstrumentationLibraryBatch : instrumentationLibraryBatch := { b := newBatcher }

/-- Method `instrumentationLibraryBatch.Queue`. -/
def instrumentationLibraryBatch.Queue (ilb : instrumentationLibraryBatch)
    (name version : GoString) (schemaURLID : pgtype.Int8) : instrumentationLibraryBatch :=
  if name = [] then ilb
  else { b := ilb.b.Queue (.instrumentationLibrary
            { name := name, version := version, schemaURLID := schemaURLID }) }

/-- Method `instrumentationLibraryBatch.SendBatch`. -/
def instrumentationLibraryBatch.SendBatch (TracePublic : String)
    (ilb : instrumentationLibraryBatch) (cache : clockcache.Cache) (conn : PgxConn) :
    SendBatchResult :=
  ilb.b.SendBatch TracePublic cache conn

/-- Method `instrumentationLibraryBatch.GetID`. -/
def instrumentationLibraryBatch.GetID (ilb : instrumentationLibraryBatch)
    (name version : GoString) (schemaURLID : pgtype.Int8) : pgtype.Int8 × Option GoError :=
  if name = [] then ({ Status := pgtype.Null }, none)
  else
    match ilb.b.GetInt8 (.instrumentationLibrary
            { name := name, version := version, schemaURLID := schemaURLID }) with
    | (_, some err) =>
      ({ Status := pgtype.Null },
        some (.wrap "error getting ID for instrumentation library %v: %w" err))
    | (id, none) => (id, none)

/-! ## The metric batcher (`metric_batcher.go`) -/

/-- The variable `errors.ErrMissingTableName`. -/
def errors.ErrMissingTableName : GoError := .sentinel "ErrMissingTableName"

/-- The struct `model.MetricInfo`, with the fields that the composite literal in
`initializeMetricBatcher` names. -/
structure model.MetricInfo where
  TableSchema : GoString := []
  TableName : GoString := []
  SeriesTable : GoString := []
  deriving DecidableEq, Repr

/-- The `pgx` rows that `conn.Query` returns, as `metricTableName` reads them:
what `Next()` returns, what `Err()` returns, and what `Scan(&tableName,
&possiblyNew)` stores and returns. -/
structure Rows where
  Next : Bool
  Err : Option GoError
  Scan : (GoString × Bool) × Option GoError
  deriving DecidableEq, Repr

/-- Function `metricTableName`.  The argument is the answer of
`conn.Query(context.Background(), getCreateMetricsTableWithNewSQL, metric)`. -/
def metricTableName (query : Except GoError Rows) : GoString × Bool × Option GoError :=
  match query with
  | .error err =>
    ([], true, some (.wrap "failed to get the table name for metric %s: %w" err))
  | .ok res =>
    if !res.Next then
      match res.Err with
      | some err =>
        ([], true, some (.wrap "failed to get the table name for metric %s: %w" err))
      | none => ([], true, some errors.ErrMissingTableName)
    else
      match res.Scan with
      | (_, some err) =>
        ([], true, some (.wrap "failed to get the table name for metric %s: %w" err))
      | ((tableName, possiblyNew), none) =>
        match res.Err with
        | some err =>
          ([], true, some (.wrap "failed to get the table name for metric %s: %w" err))
        | none =>
          if tableName = [] then
            ([], true, some (.msg
              "failed to get the table name for metric %s: empty table name returned"))
          else
            (tableName, possiblyNew, none)

/-- The channel `completeMetricCreationSignal`: the number of signals in its
buffer and its capacity.  (A receiver blocked on the channel is not
modelled.) -/
structure SignalChan where
  buffered : Nat
  capacity : Nat
  deriving DecidableEq, Repr

/-- The statement `select { case ch <- struct{}{}: default: }`: the signal is
added if there is room, and dropped otherwise. -/
def SignalChan.trySend (c : SignalChan) : SignalChan :=
  if c.buffered < c.capacity then { c with buffered := c.buffered + 1 } else c

/-- What one call of `initializeMetricBatcher` meets: the answer of
`metricTableNames.Get(schema.Data, metricName)`, the answer of the query of
`metricTableName`, and the state of the signal channel. -/
structure InitEnv where
  cacheGet : model.MetricInfo × Option GoError
  query : Except GoError Rows
  signal : SignalChan

/-- What one call of `initializeMetricBatcher` returns and does: the two
results, the table name stored by `metricTableNames.Set` under
`(schema.Data, metricName)` if it was called (its other fields are
`TableSchema: schema.Data` and `SeriesTable: ""`), and the signal channel
afterwards. -/
structure InitResult where
  tableName : GoString
  err : Option GoError
  cacheSet : Option GoString
  signal : SignalChan
  deriving DecidableEq, Repr

/-- Function `initializeMetricBatcher`. -/
def initializeMetricBatcher (env : InitEnv) : InitResult :=
  if env.cacheGet.2 = none ∧ env.cacheGet.1.TableName ≠ [] then
    { tableName := env.cacheGet.1.TableName, err := none, cacheSet := none,
      signal := env.signal }
  else
    match metricTableName env.query with
    | (tableName, possiblyNew, err) =>
      if err ≠ none ∨ tableName = [] then
        { tableName := [], err := err, cacheSet := none, signal := env.signal }
      else
        { tableName := tableName, err := err, cacheSet := some tableName,
          signal := if possiblyNew then env.signal.trySend else env.signal }

/-- What the worker finds on its input channel, in the order in which it
finds it: a request, or the channel momentarily empty (a blocking receive waits
there, a non-blocking one takes the `default` branch).  At the end of the list
the channel is closed and drained. -/
inductive Recv (Req : Type) where
  | req (r : Req)
  | empty
  deriving DecidableEq, Repr

/-- Modelled from the spec: the pending buffer of `pending_buffer.go`, which is
not among the embedded files.  `AddReq` appends the samples of a request and
retains its completion handle, so a buffer is given by the requests added to
it, in order; a request is a `*insertDataRequest`, nil being `none`.  The
checks `IsEmpty` and `IsFull` are implementation-chosen: they are parameters
of the worker. -/
structure pendingBuffer (Req : Type) where
  reqs : List (Option Req)
  deriving DecidableEq, Repr

/-- Modelled from the spec: a fresh empty buffer. -/
def NewPendingBuffer {Req : Type} : pendingBuffer Req := { reqs := [] }

/-- Modelled from the spec: `addReq` appends the request. -/
def pendingBuffer.addReq {Req : Type} (p : pendingBuffer Req) (req : Option Req) :
    pendingBuffer Req :=
  { reqs := p.reqs ++ [req] }

/-- The struct `copyRequest`: a pending buffer and a table name. -/
structure copyRequest (Req : Type) where
  buffer : pendingBuffer Req
  tableName : GoString
  deriving DecidableEq, Repr

/-- The struct `metricBatcher`.  `input` is what is still to be found on the
input channel, `toCopiers` what has been sent on the copier channel. -/
structure metricBatcher (Req : Type) where
  input : List (Recv Req)
  pending : pendingBuffer Req
  metricTableName : GoString
  toCopiers : List (copyRequest Req)
  deriving DecidableEq, Repr

/-- Method `metricBatcher.flushPending`: the blocking send on `toCopiers` and the
fresh buffer (the `MetricBatcherFlushSeries` observation is left out). -/
def metricBatcher.flushPending {Req : Type} (h : metricBatcher Req) : metricBatcher Req :=
  { h with
    toCopiers := h.toCopiers ++ [{ buffer := h.pending, tableName := h.metricTableName }]
    pending := NewPendingBuffer }

/-- Method `metricBatcher.flush`. -/
def metricBatcher.flush {Req : Type} (IsEmpty : pendingBuffer Req → Bool)
    (h : metricBatcher Req) : metricBatcher Req :=
  if IsEmpty h.pending then h else h.flushPending

/-- Method `metricBatcher.handleReq`. -/
def metricBatcher.handleReq {Req : Type} (IsFull : pendingBuffer Req → Bool)
    (h : metricBatcher Req) (req : Option Req) : metricBatcher Req × Bool :=
  let h1 := { h with pending := h.pending.addReq req }
  if IsFull h1.pending then (h1.flushPending, true) else (h1, false)

/-- The blocking receive `req, ok := <-h.input`: the next request, or the zero
value and `ok = false` once the channel is closed. -/
def recvBlocking {Req : Type} : List (Recv Req) → Option Req × Bool × List (Recv Req)
  | [] => (none, false, [])
  | .empty :: rest => recvBlocking rest
  | .req r :: rest => (some r, true, rest)

/-- Method `metricBatcher.blockingHandleReq`. -/
def metricBatcher.blockingHandleReq {Req : Type} (IsFull : pendingBuffer Req → Bool)
    (h : metricBatcher Req) : metricBatcher Req × Bool :=
  match recvBlocking h.input with
  | (req, ok, rest) =>
    if !ok then ({ h with input := rest }, false)
    else ((metricBatcher.handleReq IsFull { h with input := rest } req).1, true)

/-- The outcome of `select { case req := <-h.input: ... default: ... }`. -/
inductive Select (Req : Type) where
  | received (req : Option Req) (rest : List (Recv Req))
  | default (rest : List (Recv Req))

/-- The non-blocking receive: with a request waiting the receive case runs;
with the channel empty the `default` case runs; on a closed channel the
receive case runs at once with the zero value, nil. -/
def recvNonblocking {Req : Type} : List (Recv Req) → Select Req
  | [] => .received none []
  | .empty :: rest => .default rest
  | .req r :: rest => .received (some r) rest

/-- Method `metricBatcher.nonblockingHandleReq`. -/
def metricBatcher.nonblockingHandleReq {Req : Type} (IsFull : pendingBuffer Req → Bool)
    (h : metricBatcher Req) : metricBatcher Req × Bool :=
  match recvNonblocking h.input with
  | .received req rest => ((metricBatcher.handleReq IsFull { h with input := rest } req).1, true)
  | .default rest => ({ h with input := rest }, false)

/-- Where the worker stands in the loop of `runMetricBatcher`: at the head of
the outer `for`, at the head of the `hotReceive` loop, or returned. -/
inductive Pc where
  | loop
  | hotReceive
  | returned
  deriving DecidableEq, Repr

/-- The worker in its steady phase. -/
structure Worker (Req : Type) where
  h : metricBatcher Req
  pc : Pc
  deriving DecidableEq, Repr

/-- One step of the steady loop of `runMetricBatcher`: one test of
`pending.IsEmpty()` with the blocking receive that follows it, or one
iteration of the `hotReceive` loop, followed by `flush` when that loop ends. -/
def Worker.step {Req : Type} (IsEmpty IsFull : pendingBuffer Req → Bool) (w : Worker Req) :
    Worker Req :=
  match w.pc with
  | .returned => w
  | .loop =>
    if IsEmpty w.h.pending then
      match w.h.blockingHandleReq IsFull with
      | (h, stillAlive) =>
        if !stillAlive then { h := h, pc := .returned } else { h := h, pc := .loop }
    else
      { w with pc := .hotReceive }
  | .hotReceive =>
    match w.h.nonblockingHandleReq IsFull with
    | (h, true) =>
      if IsFull h.pending then { h := h.flush IsEmpty, pc := .loop }
      else { h := h, pc := .hotReceive }
    | (h, false) => { h := h.flush IsEmpty, pc := .loop }

/-- The steady loop run for `fuel` steps. -/
def Worker.run {Req : Type} (IsEmpty IsFull : pendingBuffer Req → Bool) :
    Nat → Worker Req → Worker Req
  | 0, w => w
  | fuel + 1, w => Worker.run IsEmpty IsFull fuel (w.step IsEmpty IsFull)

/-- The variables of the startup loop of `runMetricBatcher`, with the calls
made so far: `reports` are the calls `firstReq.reportResult(err)`, `inits` the
calls of `initializeMetricBatcher`. -/
structure Startup (Req : Type) where
  tableName : GoString
  firstReq : Option Req
  firstReqSet : Bool
  input : List (Recv Req)
  reports : List (Req × Option GoError)
  inits : List InitResult
  deriving DecidableEq, Repr

/-- The loop `for firstReq = range input` of `runMetricBatcher`; `envs n` is
what the `n`-th call of `initializeMetricBatcher` meets. -/
def startupLoop {Req : Type} (envs : Nat → InitEnv) :
    List (Recv Req) → Startup Req → Startup Req
  | [], st => { st with input := [] }
  | .empty :: rest, st => startupLoop envs rest st
  | .req r :: rest, st =>
    let init := initializeMetricBatcher (envs st.inits.length)
    match init.err with
    | some err =>
      startupLoop envs rest
        { st with
          tableName := init.tableName
          firstReq := some r
          reports := st.reports ++
            [(r, some (.wrap
              "initializing the insert routine for metric %v has failed with %w" err))]
          inits := st.inits ++ [init] }
    | none =>
      { st with
        tableName := init.tableName
        firstReq := some r
        firstReqSet := true
        input := rest
        inits := st.inits ++ [init] }

/-- What `runMetricBatcher` has done after the startup phase and `fuel` steps
of the steady loop: the `reportResult` calls, the calls of
`initializeMetricBatcher`, and the worker (none when the function returned
from the startup phase, before the handler was made). -/
structure RunResult (Req : Type) where
  reports : List (Req × Option GoError)
  inits : List InitResult
  worker : Option (Worker Req)
  deriving DecidableEq, Repr

/-- The part of `runMetricBatcher` that follows the startup loop: the return
when no first request was set, otherwise the handler, `handleReq(firstReq)` and
the steady loop. -/
def afterStartup {Req : Type} (IsEmpty IsFull : pendingBuffer Req → Bool) (fuel : Nat)
    (st : Startup Req) : RunResult Req :=
  if !st.firstReqSet then
    { reports := st.reports, inits := st.inits, worker := none }
  else
    let handler : metricBatcher Req :=
      { input := st.input, pending := NewPendingBuffer, metricTableName := st.tableName,
        toCopiers := [] }
    let handler := (handler.handleReq IsFull st.firstReq).1
    { reports := st.reports, inits := st.inits,
      worker := some (Worker.run IsEmpty IsFull fuel { h := handler, pc := .loop }) }

/-- Function `runMetricBatcher`: the startup loop on the input channel, and
then `afterStartup`. -/
def runMetricBatcher {Req : Type} (IsEmpty IsFull : pendingBuffer Req → Bool)
    (envs : Nat → InitEnv) (input : List (Recv Req)) (fuel : Nat) : RunResult Req :=
  afterStartup IsEmpty IsFull fuel
    (startupLoop envs input
      { tableName := [], firstReq := none, firstReqSet := false, input := input,
        reports := [], inits := [] })

/-! ## The replay driver (`runner.go`) -/

/-- The conversion `uint64(x)` of a Go `int`. -/
def toUint64 (x : ℤ) : Nat := (x % 2 ^ 64).toNat

/-- The value of an `int64` (or 64-bit `int`) expression whose mathematical
value is `x`: it wraps around. -/
def wrapInt64 (x : ℤ) : ℤ := (x + 2 ^ 63) % 2 ^ 64 - 2 ^ 63

/-- The fields of `BenchConfig` that the embedded functions read, apart from
the `float64` field `RateMultiplier` (see `visitSample`). -/
structure BenchConfig where
  SeriesMultiplier : ℤ
  UseWallClockForDataTime : Bool
  RateControl : Bool
  deriving DecidableEq, Repr

/-- Function `getSeriesID` (`uint64` arithmetic). -/
def getSeriesID (conf : BenchConfig) (rawSeriesID : Nat) (seriesMultipliedIndex : ℤ) : Nat :=
  ((rawSeriesID * toUint64 conf.SeriesMultiplier) % 2 ^ 64 +
    toUint64 seriesMultipliedIndex) % 2 ^ 64

/-- The struct `record.RefSample`; `Val` stands for `float64`, whose values are
only carried. -/
structure RefSample (Val : Type) where
  Ref : Nat
  T : ℤ
  V : Val
  deriving DecidableEq, Repr

/-- What the closure passed to `sth.Visit` in `RunFullSimulation` writes: the
variable `count`, the slices passed to `ws.Append`, the integers whose
`float64` conversion is passed to `qmi.highestTs.Set`, and the arguments of
`qmi.samplesIn.Incr`. -/
structure Simulation (Val : Type) where
  count : ℤ
  appended : List (List (RefSample Val))
  highestTs : List ℤ
  samplesIn : List ℤ
  deriving DecidableEq, Repr

/-- The closure passed to `sth.Visit` in `RunFullSimulation`, for one visited
sample.  `scale x` stands for `int64(float64(x) / conf.RateMultiplier)`, a
floating-point computation that is not modelled; the wait under `RateControl`
writes nothing. -/
def visitSample {Val : Type} (conf : BenchConfig) (scale : ℤ → ℤ)
    (firstTs dataTimeStartTs : ℤ) (st : Simulation Val) (rawTs : ℤ) (val : Val)
    (seriesID : Nat) : Simulation Val :=
  let timestampDelta := scale (wrapInt64 (rawTs - firstTs))
  let dataTimestamp := wrapInt64 (dataTimeStartTs + timestampDelta)
  -- the loop over seriesMultiplierIndex = 0, ..., SeriesMultiplier - 1
  let appends := (List.range conf.SeriesMultiplier.toNat).map
    (fun (seriesMultiplierIndex : Nat) =>
      [({ Ref := getSeriesID conf seriesID (seriesMultiplierIndex : ℤ), T := dataTimestamp,
          V := val } : RefSample Val)])
  let samplesSent : ℤ := appends.length
  { count := wrapInt64 (st.count + samplesSent)
    appended := st.appended ++ appends
    highestTs := st.highestTs ++ [dataTimestamp.tdiv 1000]
    samplesIn := st.samplesIn ++ [samplesSent] }

/-- Function `checkSeriesSet`: the first warning, else the error of the
series set. -/
def checkSeriesSet (warnings : List GoError) (err : Option GoError) : Option GoError :=
  match warnings with
  | w :: _ => some w
  | [] => err

/-- Modelled from the spec: the series-time heap, which is not among the
embedded files.  It is given by the timestamp at its root, the samples
`(rawTs, val, rawSeriesID)` that `Visit` passes to its callback, in order of
timestamp, and the error that `Visit` returns. -/
structure SeriesTimeHeap (Val : Type) where
  firstTs : ℤ
  visited : List (ℤ × Val × Nat)
  visitErr : Option GoError

/-- Function `RunFullSimulation`, without the wall-clock start time that it
also returns: the count, the error, and the effects of the visit.  `heap` is
what `NewSeriesTimeHeap` returns, `startTs` the wall-clock time in
milliseconds, `warnings` and `ssErr` what the series set reports at the end. -/
def RunFullSimulation {Val : Type} (conf : BenchConfig) (scale : ℤ → ℤ)
    (heap : Except GoError (SeriesTimeHeap Val)) (startTs : ℤ)
    (warnings : List GoError) (ssErr : Option GoError) :
    ℤ × Option GoError × Simulation Val :=
  match heap with
  | .error err => (0, some err, { count := 0, appended := [], highestTs := [], samplesIn := [] })
  | .ok sth =>
    let firstTs := sth.firstTs
    let dataTimeStartTs := if conf.UseWallClockForDataTime then startTs else firstTs
    let st := sth.visited.foldl
      (fun st s => visitSample conf scale firstTs dataTimeStartTs st s.1 s.2.1 s.2.2)
      { count := 0, appended := [], highestTs := [], samplesIn := [] }
    let err := match sth.visitErr with
      | some e => some e
      | none => checkSeriesSet warnings ssErr
    (st.count, err, st)

/-! ## Sort keys (specification side) -/

/-- The sort key of an operation, in the lexicographic product order. -/
def operation.key (o : operation) : GoString ×ₗ GoString ×ₗ GoString :=
  toLex (o.serviceName, toLex (o.spanName, o.spanKind))

/-- The sort key of an instrumentation library, in the lexicographic product
order. -/
def instrumentationLibrary.key (il : instrumentationLibrary) :
    GoString ×ₗ GoString ×ₗ pgtype.Status ×ₗ ℤ :=
  toLex (il.name, toLex (il.version, toLex (il.schemaURLID.Status, il.schemaURLID.Int)))


/-- A boolean relation is a strict total order: irreflexive, transitive, and
for two different elements exactly one of `lt a b`, `lt b a` holds. -/
def StrictTotal {α : Type} (lt : α → α → Bool) : Prop :=
  (∀ a, lt a a = false) ∧
  (∀ a b c, lt a b = true → lt b c = true → lt a c = true) ∧
  (∀ a b, a = b ∨ lt a b ≠ lt b a)

/-! ## The reference orders of the specification -/

/-- Byte-wise comparison of two strings, following the spec's words: the first
position at which the strings differ decides, and a proper prefix is the
smaller. -/
def bytewiseLess : GoString → GoString → Bool
  | [], [] => false
  | [], _ :: _ => true
  | _ :: _, [] => false
  | a :: as, b :: bs =>
    if a < b then true else if b < a then false else bytewiseLess as bs

/-- The reference order of operations, following the spec's words:
lexicographic on `(serviceName, spanName, spanKind)`. -/
def operation.lexLess (a b : operation) : Prop :=
  bytewiseLess a.serviceName b.serviceName = true ∨
  (a.serviceName = b.serviceName ∧
    (bytewiseLess a.spanName b.spanName = true ∨
      (a.spanName = b.spanName ∧ bytewiseLess a.spanKind b.spanKind = true)))

/-- The reference order of instrumentation libraries, following the spec's
words: lexicographic on `(name, version, schemaURLID.status,
schemaURLID.value)`. -/
def instrumentationLibrary.lexLess (a b : instrumentationLibrary) : Prop :=
  bytewiseLess a.name b.name = true ∨
  (a.name = b.name ∧
    (bytewiseLess a.version b.version = true ∨
      (a.version = b.version ∧
        (a.schemaURLID.Status < b.schemaURLID.Status ∨
          (a.schemaURLID.Status = b.schemaURLID.Status ∧
            a.schemaURLID.Int < b.schemaURLID.Int)))))

/-! ## Notions used to state the properties -/

/-- The queued items that the cache does not hold, in the order in which the
map is visited. -/
def cacheMisses (cache : clockcache.Cache) (b : batcher) : List queable :=
  b.batch.keys.filter (fun q => (cache.Get q).isNone)

/-- All the items of a list have the same dynamic type. -/
def SingleVariant (l : List queable) : Prop :=
  ∀ x ∈ l, ∀ y ∈ l, x.variant = y.variant

instance (l : List queable) : Decidable (SingleVariant l) := by
  unfold SingleVariant; infer_instance

/-- The first statement that an item queues (each of the three implementations
queues exactly one, see `enqueue_eq`). -/
def queable.stmt (TracePublic : String) (item : queable) : Stmt :=
  (enqueue TracePublic item).headD { sql := "", args := [] }

/-- The `cache.Insert` call that `SendBatch` makes for `item` when the row
scanned for it is the `k`-th of `rows`. -/
def insertOf (rows : Nat → pgtype.Int8 × Option GoError) (p : Nat × queable) : CacheInsert :=
  { key := p.2, value := .int8 (rows p.1).1, size := p.2.SizeInCache }

/-- The representation invariant of the Go map: no key occurs twice. -/
def batcher.WellFormed (b : batcher) : Prop := b.batch.keys.Nodup

instance (b : batcher) : Decidable b.WellFormed := by
  unfold batcher.WellFormed; infer_instance

/-- The requests sent on the input channel, in order. -/
def requests {Req : Type} : List (Recv Req) → List Req
  | [] => []
  | .empty :: rest => requests rest
  | .req r :: rest => r :: requests rest

/-- Every value that the worker has added to a pending buffer, in order: the
contents of the buffers sent to the copiers and of the buffer it holds. -/
def metricBatcher.added {Req : Type} (h : metricBatcher Req) : List (Option Req) :=
  h.toCopiers.flatMap (fun c => c.buffer.reqs) ++ h.pending.reqs

/-- See `metricBatcher.added`. -/
def Worker.added {Req : Type} (w : Worker Req) : List (Option Req) := w.h.added

/-- The copy requests sent on the copier channel in a run. -/
def RunResult.toCopiers {Req : Type} (out : RunResult Req) : List (copyRequest Req) :=
  match out.worker with
  | none => []
  | some w => w.h.toCopiers

/-- Every value added to a pending buffer in a run (see `Worker.added`). -/
def RunResult.added {Req : Type} (out : RunResult Req) : List (Option Req) :=
  match out.worker with
  | none => []
  | some w => w.added

/-- Whether `runMetricBatcher` has returned. -/
def RunResult.returned {Req : Type} (out : RunResult Req) : Bool :=
  match out.worker with
  | none => true
  | some w => decide (w.pc = .returned)

/-- The error that `runMetricBatcher` reports to a request when
`initializeMetricBatcher` has returned `err`. -/
def startupError (err : Option GoError) : Option GoError :=
  err.map (GoError.wrap "initializing the insert routine for metric %v has failed with %w")

/-- The pending buffer to which the requests `l` have been added, in order. -/
def bufferOf {Req : Type} (l : List Req) : pendingBuffer Req := { reqs := l.map some }

/-- No empty buffer has been sent: every copy request sent carries a buffer
that the check `IsEmpty` rejects and that holds something added, and the
buffer that the worker holds is a new one or one to which something has been
added. -/
def metricBatcher.NoEmptySent {Req : Type} (IsEmpty : pendingBuffer Req → Bool)
    (h : metricBatcher Req) : Prop :=
  (∀ cr ∈ h.toCopiers, IsEmpty cr.buffer = false ∧ cr.buffer.reqs ≠ []) ∧
  (h.pending = NewPendingBuffer ∨ ∃ p req, h.pending = pendingBuffer.addReq p req)

/-- A nil has been added to a pending buffer only if the input channel is
closed and drained. -/
def metricBatcher.NilOnlyClosed {Req : Type} (h : metricBatcher Req) : Prop :=
  none ∈ h.added → h.input = []

/-! ## Concrete inputs -/

/-- A connection whose batches succeed: the `k`-th row scanned is the present
id `ids[k]` (0 past the end), and `Close` succeeds. -/
def okConn (ids : List ℤ) : PgxConn :=
  { SendBatch := fun _ =>
      .ok { rows := fun k => ({ Int := ids.getD k 0, Status := pgtype.Present }, none)
            next := 0
            closeErr := none } }

/-- Scenario S1: `SchemaURL("b")`, `SchemaURL("a")`, `SchemaURL("b")` queued on
a new batcher. -/
def batcherS1 : batcher :=
  ((newBatcher.Queue (.schemaURL (ascii "b"))).Queue (.schemaURL (ascii "a"))).Queue
    (.schemaURL (ascii "b"))

/-- A connection on which every batch fails to be sent. -/
def failingConn : PgxConn := { SendBatch := fun _ => .error (.external 1) }

/-- A cache that holds the ids 11 and 12 of the schema URLs "a" and "b". -/
def cacheAB : clockcache.Cache :=
  ⟨[(.schemaURL (ascii "a"), .int8 { Int := 11, Status := pgtype.Present }),
    (.schemaURL (ascii "b"), .int8 { Int := 12, Status := pgtype.Present })]⟩

/-- Scenario S4: the schema URLs "a", "b" and "c" queued on a new batcher (with
`cacheAB`, two of the three are cached). -/
def batcherS4 : batcher :=
  ((newBatcher.Queue (.schemaURL (ascii "c"))).Queue (.schemaURL (ascii "a"))).Queue
    (.schemaURL (ascii "b"))

/-- The results that `okConn ids` answers with. -/
def okResults (ids : List ℤ) : BatchResults :=
  { rows := fun k => ({ Int := ids.getD k 0, Status := pgtype.Present }, none)
    next := 0
    closeErr := none }

/-- A connection whose batches are sent, whose first row scans as the id 7
and whose second row fails to scan. -/
def secondRowFails : BatchResults :=
  { rows := fun k =>
      if k = 0 then ({ Int := 7, Status := pgtype.Present }, none)
      else ({}, some (.external 2))
    next := 0
    closeErr := none }

/-- See `secondRowFails`. -/
def secondRowFailsConn : PgxConn := { SendBatch := fun _ => .ok secondRowFails }

/-- A connection answer: one row holding a table name and `possiblyNew`. -/
def rowOf (tableName : GoString) (possiblyNew : Bool) : Except GoError Rows :=
  .ok { Next := true, Err := none, Scan := ((tableName, possiblyNew), none) }

/-- The metric is not in the metric cache, the store answers `query`, and the
signal channel has room for one signal. -/
def envUncached (query : Except GoError Rows) : InitEnv :=
  { cacheGet := ({}, some (.external 9)), query := query, signal := ⟨0, 1⟩ }

/-- Scenario S5: the first table resolution gets an empty table name from the
store, the later ones get the table "tbl". -/
def envsS5 : Nat → InitEnv := fun n =>
  if n = 0 then envUncached (rowOf [] false) else envUncached (rowOf (ascii "tbl") true)

/-- A pending buffer check: no request has been added. -/
def noRequest (p : pendingBuffer Nat) : Bool := p.reqs.isEmpty

/-- A pending buffer check: three requests or more have been added. -/
def threeRequests (p : pendingBuffer Nat) : Bool := decide (3 ≤ p.reqs.length)

/-- A configuration with series multiplier 3. -/
def confK3 : BenchConfig :=
  { SeriesMultiplier := 3, UseWallClockForDataTime := false, RateControl := false }

/-- A replay that has appended nothing yet. -/
def simulationStart : Simulation ℤ :=
  { count := 0, appended := [], highestTs := [], samplesIn := [] }

/-- Modelled from the spec: a sample `{seriesRef, timestamp, value}`.  The
value, a `float64`, is only carried; the examples have integral values. -/
structure Sample where
  seriesRef : Nat
  timestamp : ℤ
  value : ℤ
  deriving DecidableEq, Repr

/-- Modelled from the spec: an insert request, with its metric name, its
samples and its completion handle (an identifier). -/
structure insertDataRequest where
  metric : GoString
  samples : List Sample
  handle : Nat
  deriving DecidableEq, Repr

/-- The samples held by a pending buffer of insert requests. -/
def samplesOf (p : pendingBuffer insertDataRequest) : List Sample :=
  p.reqs.reduceOption.flatMap (fun r => r.samples)

/-- A pending buffer check: nothing has been added. -/
def holdsNothing {Req : Type} (p : pendingBuffer Req) : Bool := p.reqs.isEmpty

/-- A pending buffer check: the buffer holds `n` samples or more. -/
def holdsSamples (n : Nat) (p : pendingBuffer insertDataRequest) : Bool :=
  decide (n ≤ (samplesOf p).length)

/-- Every table resolution finds the table "tbl" in the store. -/
def envsOk : Nat → InitEnv := fun _ => envUncached (rowOf (ascii "tbl") true)

/-- Scenario S2, first request: metric "m1", samples `(1000, 1)` and
`(2000, 2)`. -/
def reqS2a : insertDataRequest :=
  { metric := ascii "m1"
    samples := [{ seriesRef := 1, timestamp := 1000, value := 1 },
                { seriesRef := 1, timestamp := 2000, value := 2 }]
    handle := 1 }

/-- Scenario S2, second request: metric "m1", sample `(3000, 3)`. -/
def reqS2b : insertDataRequest :=
  { metric := ascii "m1"
    samples := [{ seriesRef := 1, timestamp := 3000, value := 3 }]
    handle := 2 }

/-- The scaling of a rate multiplier of 2: `int64(float64(x) / 2.0)` for the
small differences of the examples, where the division is exact up to
truncation. -/
def halfScale (x : ℤ) : ℤ := Int.tdiv x 2

/-- A heap whose first block timestamp is 400 and which visits the sample
`(400, 5)` of raw series 7 and then the sample `(1000, 6)` of raw series 8. -/
def heapTwoSamples : SeriesTimeHeap ℤ :=
  { firstTs := 400, visited := [(400, 5, 7), (1000, 6, 8)], visitErr := none }
/-! ## Theorems -/

theorem schemaURL_Before_iff (s u : GoString) :
    queable.Before (.schemaURL s) (.schemaURL u) = true ↔ s < u := by
  simp [queable.Before, schemaURL.Before]

theorem operation_Before_iff (a b : operation) :
    queable.Before (.operation a) (.operation b) = true ↔ a.key < b.key := by
  simp only [queable.Before, operation.Before, operation.key, Prod.Lex.lt_iff]
  by_cases h1 : a.serviceName = b.serviceName
  · by_cases h2 : a.spanName = b.spanName
    · simp [h1, h2]
    · simp [h1, h2]
  · simp [h1]

theorem instrumentationLibrary_Before_iff (a b : instrumentationLibrary) :
    queable.Before (.instrumentationLibrary a) (.instrumentationLibrary b) = true
      ↔ a.key < b.key := by
  simp only [queable.Before, instrumentationLibrary.Before, instrumentationLibrary.key,
    Prod.Lex.lt_iff]
  by_cases h1 : a.name = b.name
  · by_cases h2 : a.version = b.version
    · by_cases h3 : a.schemaURLID.Status = b.schemaURLID.Status
      · simp [h1, h2, h3]
      · simp [h1, h2, h3]
    · simp [h1, h2]
  · simp [h1]

theorem operation_key_injective : Function.Injective operation.key := by
  intro a b h
  cases a; cases b
  simp only [operation.key, EmbeddingLike.apply_eq_iff_eq, Prod.mk.injEq] at h
  obtain ⟨h1, h2, h3⟩ := h
  subst h1 h2 h3; rfl

theorem instrumentationLibrary_key_injective :
    Function.Injective instrumentationLibrary.key := by
  intro a b h
  obtain ⟨n, v, ⟨i, s⟩⟩ := a
  obtain ⟨n2, v2, ⟨i2, s2⟩⟩ := b
  simp only [instrumentationLibrary.key, EmbeddingLike.apply_eq_iff_eq, Prod.mk.injEq] at h
  obtain ⟨h1, h2, h3, h4⟩ := h
  subst h1 h2 h3 h4; rfl

/-! ### `Before` is a strict total order on each variant -/

theorem Before_variant {a b : queable} (h : a.Before b = true) : a.variant = b.variant := by
  cases a <;> cases b <;>
    simp_all [queable.Before, schemaURL.Before, operation.Before,
      instrumentationLibrary.Before, queable.variant]

theorem Before_irrefl (a : queable) : a.Before a = false := by
  rw [Bool.eq_false_iff]
  cases a with
  | schemaURL s => rw [Ne, schemaURL_Before_iff]; exact lt_irrefl s
  | operation o => rw [Ne, operation_Before_iff]; exact lt_irrefl _
  | instrumentationLibrary il =>
    rw [Ne, instrumentationLibrary_Before_iff]; exact lt_irrefl _

theorem Before_trans {a b c : queable} (hab : a.Before b = true) (hbc : b.Before c = true) :
    a.Before c = true := by
  have v1 := Before_variant hab
  have v2 := Before_variant hbc
  cases a <;> cases b <;> simp [queable.variant] at v1 <;>
    cases c <;> simp [queable.variant] at v2
  · rw [schemaURL_Before_iff] at *; exact lt_trans hab hbc
  · rw [operation_Before_iff] at *; exact lt_trans hab hbc
  · rw [instrumentationLibrary_Before_iff] at *; exact lt_trans hab hbc

theorem Before_asymm {a b : queable} (hab : a.Before b = true) : b.Before a = false := by
  rw [Bool.eq_false_iff]
  intro hba
  have := Before_trans hab hba
  rw [Before_irrefl] at this
  exact Bool.false_ne_true this

theorem Before_total {a b : queable} (hv : a.variant = b.variant) (hne : a ≠ b) :
    a.Before b = true ∨ b.Before a = true := by
  cases a <;> cases b <;> simp [queable.variant] at hv
  case schemaURL.schemaURL s u =>
    rw [schemaURL_Before_iff, schemaURL_Before_iff]
    rcases lt_trichotomy s u with h | h | h
    · exact Or.inl h
    · exact absurd (by rw [h]) hne
    · exact Or.inr h
  case operation.operation o p =>
    rw [operation_Before_iff, operation_Before_iff]
    rcases lt_trichotomy o.key p.key with h | h | h
    · exact Or.inl h
    · exact absurd (by rw [operation_key_injective h]) hne
    · exact Or.inr h
  case instrumentationLibrary.instrumentationLibrary o p =>
    rw [instrumentationLibrary_Before_iff, instrumentationLibrary_Before_iff]
    rcases lt_trichotomy o.key p.key with h | h | h
    · exact Or.inl h
    · exact absurd (by rw [instrumentationLibrary_key_injective h]) hne
    · exact Or.inr h

theorem Before_exactly_one {a b : queable} (hv : a.variant = b.variant) (hne : a ≠ b) :
    a.Before b ≠ b.Before a := by
  rcases Before_total hv hne with h | h <;> simp [h, Before_asymm h]

/-- C1. On the items of one catalog variant (schema URLs, operations,
instrumentation libraries) `Before` is a strict total order: `Before a a` is
false, `Before a b` and `Before b c` give `Before a c`, and for `a ≠ b` exactly
one of `Before a b` and `Before b a` holds (the two booleans differ). -/
theorem Before_strict_total_order :
    StrictTotal (fun s u : GoString => queable.Before (.schemaURL s) (.schemaURL u)) ∧
    StrictTotal (fun o p : operation => queable.Before (.operation o) (.operation p)) ∧
    StrictTotal (fun k l : instrumentationLibrary =>
      queable.Before (.instrumentationLibrary k) (.instrumentationLibrary l)) := by
  refine ⟨⟨fun a => Before_irrefl _, fun a b c => Before_trans, fun a b => ?_⟩,
    ⟨fun a => Before_irrefl _, fun a b c => Before_trans, fun a b => ?_⟩,
    ⟨fun a => Before_irrefl _, fun a b c => Before_trans, fun a b => ?_⟩⟩
  · by_cases hab : a = b
    · exact Or.inl hab
    · exact Or.inr (Before_exactly_one rfl (by simpa using hab))
  · by_cases hab : a = b
    · exact Or.inl hab
    · exact Or.inr (Before_exactly_one rfl (by simpa using hab))
  · by_cases hab : a = b
    · exact Or.inl hab
    · exact Or.inr (Before_exactly_one rfl (by simpa using hab))

/-! ### The Go map -/

theorem GoMap.get_set (m : GoMap) (k : queable) (v : Value) (k' : queable) :
    (m.set k v).get k' = if k' = k then some v else m.get k' := by
  induction m with
  | nil =>
    by_cases h : k' = k
    · simp [GoMap.set, GoMap.get, h]
    · have h' : ¬ k = k' := fun e => h e.symm
      simp [GoMap.set, GoMap.get, h, h']
  | cons e rest ih =>
    obtain ⟨k0, v0⟩ := e
    by_cases h0 : k0 = k
    · subst h0
      by_cases h : k' = k0
      · simp [GoMap.set, GoMap.get, h]
      · have h' : ¬ k0 = k' := fun e => h e.symm
        simp [GoMap.set, GoMap.get, h, h']
    · by_cases h1 : k0 = k'
      · subst h1
        simp [GoMap.set, GoMap.get, h0]
      · simp [GoMap.set, GoMap.get, h0, h1, ih]

theorem GoMap.get_set_self (m : GoMap) (k : queable) (v : Value) :
    (m.set k v).get k = some v := by
  simp [GoMap.get_set]

theorem GoMap.get_set_of_ne (m : GoMap) {k k' : queable} (v : Value) (h : k' ≠ k) :
    (m.set k v).get k' = m.get k' := by
  simp [GoMap.get_set, h]

theorem GoMap.keys_set_of_mem (m : GoMap) {k : queable} (v : Value) (h : k ∈ m.keys) :
    (m.set k v).keys = m.keys := by
  induction m with
  | nil => simp [GoMap.keys] at h
  | cons e rest ih =>
    obtain ⟨k0, v0⟩ := e
    by_cases h0 : k0 = k
    · simp [GoMap.set, GoMap.keys, h0]
    · have hr : k ∈ GoMap.keys rest := by
        simp only [GoMap.keys, List.map_cons, List.mem_cons] at h
        rcases h with h | h
        · exact absurd h.symm h0
        · exact h
      have := ih hr
      simp only [GoMap.keys] at this ⊢
      simp [GoMap.set, h0, this]

theorem GoMap.keys_set_of_not_mem (m : GoMap) {k : queable} (v : Value) (h : k ∉ m.keys) :
    (m.set k v).keys = m.keys ++ [k] := by
  induction m with
  | nil => simp [GoMap.set, GoMap.keys]
  | cons e rest ih =>
    obtain ⟨k0, v0⟩ := e
    simp only [GoMap.keys, List.map_cons, List.mem_cons, not_or] at h
    have h0 : ¬ k0 = k := fun h' => h.1 h'.symm
    have := ih h.2
    simp only [GoMap.keys] at this ⊢
    simp [GoMap.set, h0, this]

theorem GoMap.get_eq_none_iff (m : GoMap) (k : queable) : m.get k = none ↔ k ∉ m.keys := by
  induction m with
  | nil => simp [GoMap.get, GoMap.keys]
  | cons e rest ih =>
    obtain ⟨k0, v0⟩ := e
    by_cases h : k0 = k
    · simp [GoMap.get, GoMap.keys, h]
    · have h' : ¬ k = k0 := fun e => h e.symm
      simp only [GoMap.keys] at ih
      simp [GoMap.get, GoMap.keys, h, h', ih]

theorem GoMap.set_set (m : GoMap) (k : queable) (v w : Value) :
    (m.set k v).set k w = m.set k w := by
  induction m with
  | nil => simp [GoMap.set]
  | cons e rest ih =>
    obtain ⟨k0, v0⟩ := e
    by_cases h0 : k0 = k
    · simp [GoMap.set, h0]
    · simp [GoMap.set, h0, ih]

theorem GoMap.nodup_keys_set (m : GoMap) (k : queable) (v : Value) (h : m.keys.Nodup) :
    (m.set k v).keys.Nodup := by
  by_cases hk : k ∈ m.keys
  · rw [GoMap.keys_set_of_mem m v hk]; exact h
  · rw [GoMap.keys_set_of_not_mem m v hk]
    exact List.Nodup.append h (List.nodup_singleton k) (by simpa using hk)

/-! ### The first loop of `SendBatch` -/

theorem probe_foldl (cache : clockcache.Cache) (ks : List queable) :
    ∀ (m : GoMap) (acc : List queable), (∀ k ∈ ks, k ∈ m.keys) →
      (ks.foldl (probeStep cache) (m, acc)).1.keys = m.keys ∧
      (ks.foldl (probeStep cache) (m, acc)).2 =
        acc ++ ks.filter (fun q => (cache.Get q).isNone) ∧
      (∀ k id, k ∈ ks → cache.Get k = some id →
        (ks.foldl (probeStep cache) (m, acc)).1.get k = some id) ∧
      (∀ k, (k ∉ ks ∨ cache.Get k = none) →
        (ks.foldl (probeStep cache) (m, acc)).1.get k = m.get k) := by
  induction ks with
  | nil => intro m acc _; simp
  | cons q ks ih =>
    intro m acc hks
    have hq : q ∈ m.keys := hks q (List.mem_cons_self _ _)
    have hks' : ∀ k ∈ ks, k ∈ m.keys := fun k hk => hks k (List.mem_cons_of_mem _ hk)
    simp only [List.foldl_cons]
    cases hc : cache.Get q with
    | none =>
      have hstep : probeStep cache (m, acc) q = (m, acc ++ [q]) := by
        simp [probeStep, hc]
      rw [hstep]
      obtain ⟨h1, h2, h3, h4⟩ := ih m (acc ++ [q]) hks'
      refine ⟨h1, ?_, ?_, ?_⟩
      · rw [h2]; simp [List.filter_cons, hc]
      · intro k id hk hg
        rcases List.mem_cons.mp hk with hkq | hk'
        · subst hkq; rw [hc] at hg; cases hg
        · exact h3 k id hk' hg
      · intro k hk
        apply h4
        rcases hk with hk | hk
        · exact Or.inl (fun h => hk (List.mem_cons_of_mem _ h))
        · exact Or.inr hk
    | some id0 =>
      have hstep : probeStep cache (m, acc) q = (m.set q id0, acc) := by
        simp [probeStep, hc]
      rw [hstep]
      have hkeys : (m.set q id0).keys = m.keys := GoMap.keys_set_of_mem m id0 hq
      obtain ⟨h1, h2, h3, h4⟩ := ih (m.set q id0) acc (by rw [hkeys]; exact hks')
      refine ⟨by rw [h1, hkeys], ?_, ?_, ?_⟩
      · rw [h2]; simp [List.filter_cons, hc]
      · intro k id hk hg
        by_cases hmem : k ∈ ks
        · exact h3 k id hmem hg
        · rcases List.mem_cons.mp hk with hkq | hk'
          · subst hkq
            rw [hc] at hg
            rw [h4 k (Or.inl hmem), GoMap.get_set_self]
            exact hg
          · exact absurd hk' hmem
      · intro k hk
        have hne : k ≠ q := by
          rintro rfl
          rcases hk with hk | hk
          · exact hk (List.mem_cons_self _ _)
          · rw [hc] at hk; cases hk
        have hk' : k ∉ ks ∨ cache.Get k = none := by
          rcases hk with hk | hk
          · exact Or.inl (fun h => hk (List.mem_cons_of_mem _ h))
          · exact Or.inr hk
        rw [h4 k hk', GoMap.get_set_of_ne m id0 hne]

/-- The cache misses among the queued items, in iteration order: the slice
`batch[:i]` before it is sorted. -/
theorem probe_misses (cache : clockcache.Cache) (m : GoMap) :
    (m.keys.foldl (probeStep cache) (m, [])).2 =
      m.keys.filter (fun q => (cache.Get q).isNone) := by
  have := (probe_foldl cache m.keys m [] (fun _ h => h)).2.1
  simpa using this

theorem probe_keys (cache : clockcache.Cache) (m : GoMap) :
    (m.keys.foldl (probeStep cache) (m, [])).1.keys = m.keys :=
  (probe_foldl cache m.keys m [] (fun _ h => h)).1

theorem probe_get_hit (cache : clockcache.Cache) (m : GoMap) {k : queable} {id : Value}
    (hk : k ∈ m.keys) (hg : cache.Get k = some id) :
    (m.keys.foldl (probeStep cache) (m, [])).1.get k = some id :=
  (probe_foldl cache m.keys m [] (fun _ h => h)).2.2.1 k id hk hg

theorem probe_get_miss (cache : clockcache.Cache) (m : GoMap) {k : queable}
    (hk : k ∉ m.keys ∨ cache.Get k = none) :
    (m.keys.foldl (probeStep cache) (m, [])).1.get k = m.get k :=
  (probe_foldl cache m.keys m [] (fun _ h => h)).2.2.2 k hk

/-! ### `sort.Sort` -/

theorem orderedInsert_perm (x : queable) (l : List queable) :
    (orderedInsert x l).Perm (x :: l) := by
  induction l with
  | nil => simp [orderedInsert]
  | cons y ys ih =>
    by_cases h : x.Before y = true
    · simp [orderedInsert, h]
    · simp only [orderedInsert, h]
      exact ((List.Perm.cons y ih).trans (List.Perm.swap x y ys))

theorem sortSort_perm (l : List queable) : (sortSort l).Perm l := by
  induction l with
  | nil => simp [sortSort]
  | cons x xs ih =>
    have : sortSort (x :: xs) = orderedInsert x (sortSort xs) := rfl
    rw [this]
    exact (orderedInsert_perm x _).trans (List.Perm.cons x ih)

theorem mem_sortSort {x : queable} {l : List queable} : x ∈ sortSort l ↔ x ∈ l :=
  (sortSort_perm l).mem_iff

theorem length_sortSort (l : List queable) : (sortSort l).length = l.length :=
  (sortSort_perm l).length_eq

theorem orderedInsert_sorted (x : queable) (l : List queable)
    (h : l.Pairwise (fun a b => b.Before a = false)) :
    (orderedInsert x l).Pairwise (fun a b => b.Before a = false) := by
  induction l with
  | nil => simp [orderedInsert]
  | cons y ys ih =>
    obtain ⟨hy, hys⟩ := List.pairwise_cons.mp h
    by_cases hxy : x.Before y = true
    · simp only [orderedInsert, hxy, if_true]
      refine List.pairwise_cons.mpr ⟨?_, h⟩
      intro z hz
      rcases List.mem_cons.mp hz with rfl | hz'
      · exact Before_asymm hxy
      · rw [Bool.eq_false_iff]
        intro hzx
        have := Before_trans hzx hxy
        rw [hy z hz'] at this
        exact Bool.false_ne_true this
    · simp only [orderedInsert, hxy]
      refine List.pairwise_cons.mpr ⟨?_, ih hys⟩
      intro z hz
      rcases List.mem_cons.mp ((orderedInsert_perm x ys).mem_iff.mp hz) with rfl | hz'
      · simpa using hxy
      · exact hy z hz'

theorem sortSort_sorted (l : List queable) :
    (sortSort l).Pairwise (fun a b => b.Before a = false) := by
  induction l with
  | nil => simp [sortSort]
  | cons x xs ih => exact orderedInsert_sorted x _ ih

/-- On distinct items of one variant the sorted slice is strictly increasing. -/
theorem sortSort_strict (l : List queable) (hnd : l.Nodup)
    (hv : ∀ x ∈ l, ∀ y ∈ l, x.variant = y.variant) :
    (sortSort l).Pairwise (fun a b => a.Before b = true) := by
  have hnd' : (sortSort l).Nodup := (sortSort_perm l).nodup_iff.mpr hnd
  have h := (sortSort_sorted l).and hnd'
  refine h.imp_of_mem ?_
  intro a b ha hb hab
  rcases Before_total (hv a (mem_sortSort.mp ha) b (mem_sortSort.mp hb)) hab.2 with h1 | h1
  · exact h1
  · rw [hab.1] at h1; exact absurd h1 Bool.false_ne_true

/-- On distinct items of one variant there is one sorted arrangement only:
whatever algorithm `sort.Sort` runs, it returns `sortSort l`. -/
theorem sortSort_unique (l l' : List queable) (hnd : l.Nodup)
    (hv : ∀ x ∈ l, ∀ y ∈ l, x.variant = y.variant)
    (hperm : l'.Perm l) (hsorted : l'.Pairwise (fun a b => b.Before a = false)) :
    l' = sortSort l := by
  haveI : IsAntisymm queable (fun a b => a.Before b = true) :=
    ⟨fun a b hab hba => absurd hba (by simp [Before_asymm hab])⟩
  have hnd' : l'.Nodup := hperm.nodup_iff.mpr hnd
  have hs' : l'.Pairwise (fun a b => a.Before b = true) := by
    refine (hsorted.and hnd').imp_of_mem ?_
    intro a b ha hb hab
    rcases Before_total (hv a (hperm.mem_iff.mp ha) b (hperm.mem_iff.mp hb)) hab.2 with h1 | h1
    · exact h1
    · rw [hab.1] at h1; exact absurd h1 Bool.false_ne_true
  exact List.eq_of_perm_of_sorted (hperm.trans (sortSort_perm l).symm) hs'
    (sortSort_strict l hnd hv)

/-! ### `SendBatch` -/

theorem cacheMisses_eq_nil_iff (cache : clockcache.Cache) (b : batcher) :
    cacheMisses cache b = [] ↔ ∀ q ∈ b.batch.keys, (cache.Get q).isSome = true := by
  simp only [cacheMisses, List.filter_eq_nil_iff]
  constructor
  · intro h q hq
    have := h q hq
    cases hc : cache.Get q with
    | none => simp [hc] at this
    | some v => rfl
  · intro h q hq
    have := h q hq
    cases hc : cache.Get q with
    | none => simp [hc] at this
    | some v => simp

/-- The batches handed to the connection: none when nothing is missing from
the cache, otherwise one, holding the statements of the sorted misses. -/
theorem SendBatch_sent (TracePublic : String) (b : batcher) (cache : clockcache.Cache)
    (conn : PgxConn) :
    (b.SendBatch TracePublic cache conn).sent =
      if cacheMisses cache b = [] then []
      else [(sortSort (cacheMisses cache b)).flatMap (enqueue TracePublic)] := by
  unfold batcher.SendBatch
  simp only [probe_misses]
  by_cases h : cacheMisses cache b = []
  · have h' : List.filter (fun q => (cache.Get q).isNone) b.batch.keys = [] := h
    simp [h, h']
  · have h' : ¬ List.filter (fun q => (cache.Get q).isNone) b.batch.keys = [] := h
    have hl : ¬ (List.filter (fun q => (cache.Get q).isNone) b.batch.keys).length = 0 := by
      rwa [List.length_eq_zero]
    simp only [hl, if_false, h]
    cases conn.SendBatch _ <;> rfl

theorem enqueue_length (TracePublic : String) (item : queable) :
    (enqueue TracePublic item).length = 1 := by
  cases item <;> rfl

theorem cacheMisses_nodup (cache : clockcache.Cache) (b : batcher) (hwf : b.WellFormed) :
    (cacheMisses cache b).Nodup :=
  List.Nodup.filter _ hwf

theorem cacheMisses_singleVariant (cache : clockcache.Cache) (b : batcher)
    (hv : SingleVariant b.batch.keys) : SingleVariant (cacheMisses cache b) :=
  fun x hx y hy => hv x (List.mem_of_mem_filter hx) y (List.mem_of_mem_filter hy)

/-- C2. For a batcher (a map without repeated keys) whose queued items are all
of one variant, and every cache state and connection: every batch that
`SendBatch` hands to the database consists of the statements of a list
`items` of the cache misses, one statement per item and in the order of
`items`; an item that comes earlier in `items` is never after a later one in
the `Before` order (`Before y x` is false whenever `x` is enqueued before `y`);
and `items` is the only arrangement of the misses with that property, so the
order does not depend on the order in which the map was visited or on the
sorting algorithm. -/
theorem SendBatch_statements_in_Before_order (TracePublic : String) (b : batcher)
    (cache : clockcache.Cache) (conn : PgxConn) (hwf : b.WellFormed)
    (hv : SingleVariant b.batch.keys) :
    ∀ dbBatch ∈ (b.SendBatch TracePublic cache conn).sent,
      ∃ items : List queable,
        items.Perm (cacheMisses cache b) ∧
        dbBatch = items.flatMap (enqueue TracePublic) ∧
        (∀ x ∈ items, (enqueue TracePublic x).length = 1) ∧
        items.Pairwise (fun x y => y.Before x = false) ∧
        (∀ l : List queable, l.Perm (cacheMisses cache b) →
          l.Pairwise (fun x y => y.Before x = false) → l = items) := by
  intro dbBatch hdb
  rw [SendBatch_sent] at hdb
  by_cases h : cacheMisses cache b = []
  · simp [h] at hdb
  · simp only [h, if_false, List.mem_singleton] at hdb
    exact ⟨sortSort (cacheMisses cache b), sortSort_perm _, hdb,
      fun x _ => enqueue_length _ x, sortSort_sorted _,
      fun l hl hs => sortSort_unique _ l (cacheMisses_nodup cache b hwf)
        (cacheMisses_singleVariant cache b hv) hl hs⟩

/-- Scenario S1 as an instance of C2: `SchemaURL("b")`, `SchemaURL("a")`,
`SchemaURL("b")` queued with an empty cache give one batch,
`put_schema_url('a')` and then `put_schema_url('b')`. -/
theorem SendBatch_statements_in_Before_order_witness :
    batcherS1.WellFormed ∧ SingleVariant batcherS1.batch.keys ∧
    (batcherS1.SendBatch "ps_trace" ⟨[]⟩ (okConn [7, 8])).sent =
      [[{ sql := "SELECT ps_trace.put_schema_url($1)", args := [.schemaURL (ascii "a")] },
        { sql := "SELECT ps_trace.put_schema_url($1)", args := [.schemaURL (ascii "b")] }]] ∧
    (∀ dbBatch ∈ (batcherS1.SendBatch "ps_trace" ⟨[]⟩ (okConn [7, 8])).sent,
      ∃ items : List queable,
        items.Perm (cacheMisses ⟨[]⟩ batcherS1) ∧
        dbBatch = items.flatMap (enqueue "ps_trace") ∧
        (∀ x ∈ items, (enqueue "ps_trace" x).length = 1) ∧
        items.Pairwise (fun x y => y.Before x = false) ∧
        (∀ l : List queable, l.Perm (cacheMisses ⟨[]⟩ batcherS1) →
          l.Pairwise (fun x y => y.Before x = false) → l = items)) :=
  ⟨by decide, by decide, by decide,
    SendBatch_statements_in_Before_order "ps_trace" batcherS1 ⟨[]⟩ (okConn [7, 8])
      (by decide) (by decide)⟩

theorem enqueue_eq (TracePublic : String) (item : queable) :
    enqueue TracePublic item = [item.stmt TracePublic] := by
  cases item <;> rfl

theorem stmt_injective (TracePublic : String) :
    Function.Injective (queable.stmt TracePublic) := by
  intro a b h
  cases a <;> cases b <;>
    simp [queable.stmt, enqueue, queable.Queries] at h
  · rw [h]
  · rename_i o p
    cases o; cases p
    simp only at h
    obtain ⟨h1, h2, h3⟩ := h
    subst h1 h2 h3; rfl
  · rename_i o p
    cases o; cases p
    simp only at h
    obtain ⟨h1, h2, h3⟩ := h
    subst h1 h2 h3; rfl

theorem flatMap_enqueue (TracePublic : String) (l : List queable) :
    l.flatMap (enqueue TracePublic) = l.map (queable.stmt TracePublic) := by
  induction l with
  | nil => rfl
  | cons x xs ih => simp [List.flatMap_cons, enqueue_eq, ih]

theorem Queue_wellFormed (b : batcher) (i : queable) (h : b.WellFormed) :
    (b.Queue i).WellFormed :=
  GoMap.nodup_keys_set b.batch i .nil h

theorem mem_keys_Queue (b : batcher) (i : queable) : i ∈ (b.Queue i).batch.keys := by
  have h := GoMap.get_set_self b.batch i .nil
  by_contra hc
  rw [← GoMap.get_eq_none_iff] at hc
  simp only [batcher.Queue] at hc
  rw [h] at hc
  cases hc

/-- C3. `Queue` has set semantics: queueing an item a second time leaves the
batcher as it was after the first time, and when the item is not in the
cache the following `SendBatch` hands one batch to the database in which the
statement of that item occurs exactly once. -/
theorem Queue_twice_one_statement (TracePublic : String) (b : batcher)
    (cache : clockcache.Cache) (conn : PgxConn) (i : queable)
    (hwf : b.WellFormed) (hmiss : cache.Get i = none) :
    (b.Queue i).Queue i = b.Queue i ∧
    ∃ dbBatch,
      (((b.Queue i).Queue i).SendBatch TracePublic cache conn).sent = [dbBatch] ∧
      enqueue TracePublic i = [i.stmt TracePublic] ∧
      dbBatch.count (i.stmt TracePublic) = 1 := by
  have hqq : (b.Queue i).Queue i = b.Queue i := by
    simp [batcher.Queue, GoMap.set_set]
  refine ⟨hqq, ?_⟩
  rw [hqq, SendBatch_sent]
  have hmem : i ∈ cacheMisses cache (b.Queue i) := by
    simp only [cacheMisses, List.mem_filter]
    exact ⟨mem_keys_Queue b i, by simp [hmiss]⟩
  have hne : cacheMisses cache (b.Queue i) ≠ [] := List.ne_nil_of_mem hmem
  refine ⟨(sortSort (cacheMisses cache (b.Queue i))).flatMap (enqueue TracePublic),
    by simp only [hne, if_false], enqueue_eq _ _, ?_⟩
  rw [flatMap_enqueue, List.count_map_of_injective _ _ (stmt_injective TracePublic),
    (sortSort_perm _).count_eq]
  exact List.count_eq_one_of_mem (cacheMisses_nodup cache _ (Queue_wellFormed b i hwf)) hmem

/-- An instance of C3: `SchemaURL("b")` queued on the batcher of scenario S1,
which holds it already, with an empty cache. -/
theorem Queue_twice_one_statement_witness :
    batcherS1.WellFormed ∧
    clockcache.Cache.Get ⟨[]⟩ (.schemaURL (ascii "b")) = none ∧
    ((batcherS1.Queue (.schemaURL (ascii "b"))).Queue (.schemaURL (ascii "b")) =
        batcherS1.Queue (.schemaURL (ascii "b")) ∧
      ∃ dbBatch,
        (((batcherS1.Queue (.schemaURL (ascii "b"))).Queue (.schemaURL (ascii "b"))).SendBatch
          "ps_trace" ⟨[]⟩ (okConn [7, 8])).sent = [dbBatch] ∧
        enqueue "ps_trace" (.schemaURL (ascii "b")) =
          [(queable.schemaURL (ascii "b")).stmt "ps_trace"] ∧
        dbBatch.count ((queable.schemaURL (ascii "b")).stmt "ps_trace") = 1) :=
  ⟨by decide, by decide,
    Queue_twice_one_statement "ps_trace" batcherS1 ⟨[]⟩ (okConn [7, 8])
      (.schemaURL (ascii "b")) (by decide) (by decide)⟩

theorem SendBatch_of_no_miss (TracePublic : String) (b : batcher) (cache : clockcache.Cache)
    (conn : PgxConn) (h : cacheMisses cache b = []) :
    b.SendBatch TracePublic cache conn =
      { b := { batch := (b.batch.keys.foldl (probeStep cache) (b.batch, [])).1 }
        inserted := [], sent := [], err := none } := by
  unfold batcher.SendBatch
  have h' : (b.batch.keys.foldl (probeStep cache) (b.batch, [])).2 = [] := by
    rw [probe_misses]; exact h
  simp [h']

/-- C4. When every queued item is a cache hit (also when nothing is queued),
`SendBatch` returns no error, hands no batch to the database, inserts
nothing into the cache, keeps the set of queued items, and afterwards the
local map holds the cached value of each item (`Get` returns it without
error). -/
theorem SendBatch_all_cached (TracePublic : String) (b : batcher) (cache : clockcache.Cache)
    (conn : PgxConn) (hhit : ∀ q ∈ b.batch.keys, (cache.Get q).isSome = true) :
    (b.SendBatch TracePublic cache conn).err = none ∧
    (b.SendBatch TracePublic cache conn).sent = [] ∧
    (b.SendBatch TracePublic cache conn).inserted = [] ∧
    (b.SendBatch TracePublic cache conn).b.batch.keys = b.batch.keys ∧
    ∀ q ∈ b.batch.keys, ∀ v, cache.Get q = some v →
      (b.SendBatch TracePublic cache conn).b.batch.get q = some v ∧
      (b.SendBatch TracePublic cache conn).b.Get q = (v, none) := by
  have hm : cacheMisses cache b = [] := (cacheMisses_eq_nil_iff cache b).mpr hhit
  rw [SendBatch_of_no_miss TracePublic b cache conn hm]
  refine ⟨rfl, rfl, rfl, probe_keys cache b.batch, ?_⟩
  intro q hq v hv
  have hg := probe_get_hit cache b.batch hq hv
  exact ⟨hg, by simp only [batcher.Get, hg]⟩

/-- An instance of C4: the batcher of scenario S1 with both of its schema URLs
in the cache, on a connection that would fail. -/
theorem SendBatch_all_cached_witness :
    (∀ q ∈ batcherS1.batch.keys, (cacheAB.Get q).isSome = true) ∧
    (batcherS1.SendBatch "ps_trace" cacheAB failingConn).err = none ∧
    (batcherS1.SendBatch "ps_trace" cacheAB failingConn).sent = [] ∧
    (batcherS1.SendBatch "ps_trace" cacheAB failingConn).inserted = [] ∧
    (batcherS1.SendBatch "ps_trace" cacheAB failingConn).b.batch.keys = batcherS1.batch.keys ∧
    ∀ q ∈ batcherS1.batch.keys, ∀ v, cacheAB.Get q = some v →
      (batcherS1.SendBatch "ps_trace" cacheAB failingConn).b.batch.get q = some v ∧
      (batcherS1.SendBatch "ps_trace" cacheAB failingConn).b.Get q = (v, none) :=
  ⟨by decide, SendBatch_all_cached "ps_trace" batcherS1 cacheAB failingConn (by decide)⟩

/-! ### The result loop of `SendBatch` -/

/-- While the rows scan without error the loop stores and inserts, in order,
the `k`-th row for the `k`-th item. -/
theorem resultLoop_ok (items : List queable) :
    ∀ st : ResultLoop,
      (∀ p ∈ items.enumFrom st.br.next, (st.br.rows p.1).2 = none) →
      (resultLoop items st).err = st.err ∧
      (resultLoop items st).inserted =
        st.inserted ++ (items.enumFrom st.br.next).map (insertOf st.br.rows) ∧
      (resultLoop items st).batch =
        (items.enumFrom st.br.next).foldl
          (fun m p => m.set p.2 (.int8 (st.br.rows p.1).1)) st.batch ∧
      (resultLoop items st).br =
        { st.br with next := st.br.next + items.length } := by
  induction items with
  | nil => intro st _; simp [resultLoop]
  | cons item rest ih =>
    intro st h
    have h0 : (st.br.rows st.br.next).2 = none :=
      h (st.br.next, item) (by simp [List.enumFrom_cons])
    have hstep : resultLoop (item :: rest) st =
        resultLoop rest
          { st with
            batch := st.batch.set item (.int8 (st.br.rows st.br.next).1)
            inserted := st.inserted ++
              [{ key := item, value := .int8 (st.br.rows st.br.next).1,
                 size := item.SizeInCache }]
            br := { st.br with next := st.br.next + 1 } } := by
      simp [resultLoop, queable.Result, h0]
    rw [hstep]
    have h' : ∀ p ∈ rest.enumFrom (st.br.next + 1), (st.br.rows p.1).2 = none :=
      fun p hp => h p (by simp [List.enumFrom_cons, hp])
    obtain ⟨e1, e2, e3, e4⟩ := ih
      { st with
        batch := st.batch.set item (.int8 (st.br.rows st.br.next).1)
        inserted := st.inserted ++
          [{ key := item, value := .int8 (st.br.rows st.br.next).1,
             size := item.SizeInCache }]
        br := { st.br with next := st.br.next + 1 } } h'
    refine ⟨e1, ?_, ?_, ?_⟩
    · rw [e2]; simp [List.enumFrom_cons, insertOf]
    · rw [e3]; simp [List.enumFrom_cons]
    · rw [e4]; simp only [List.length_cons]
      congr 1
      omega

/-- A row that fails to scan ends the loop with that error; the map and the
cache are left as they are at that point. -/
theorem resultLoop_fail (item : queable) (rest : List queable) (st : ResultLoop)
    (e : GoError) (h : (st.br.rows st.br.next).2 = some e) :
    (resultLoop (item :: rest) st).err = some e ∧
    (resultLoop (item :: rest) st).inserted = st.inserted ∧
    (resultLoop (item :: rest) st).batch = st.batch := by
  simp [resultLoop, queable.Result, h]

theorem resultLoop_append (l1 l2 : List queable) :
    ∀ st : ResultLoop,
      (∀ p ∈ l1.enumFrom st.br.next, (st.br.rows p.1).2 = none) →
      resultLoop (l1 ++ l2) st = resultLoop l2 (resultLoop l1 st) := by
  induction l1 with
  | nil => intro st _; simp [resultLoop]
  | cons item rest ih =>
    intro st h
    have h0 : (st.br.rows st.br.next).2 = none :=
      h (st.br.next, item) (by simp [List.enumFrom_cons])
    have h' : ∀ p ∈ rest.enumFrom (st.br.next + 1), (st.br.rows p.1).2 = none :=
      fun p hp => h p (by simp [List.enumFrom_cons, hp])
    simp only [List.cons_append, resultLoop, queable.Result, h0]
    exact ih
      { st with
        batch := st.batch.set item (.int8 (st.br.rows st.br.next).1)
        inserted := st.inserted ++
          [{ key := item, value := .int8 (st.br.rows st.br.next).1,
             size := item.SizeInCache }]
        br := { st.br with next := st.br.next + 1 } } h'

/-- Writing a list of distinct keys to a map: each key holds its value, the
other keys are untouched. -/
theorem foldl_set_get (f : Nat → Value) (l : List (Nat × queable)) :
    ∀ m : GoMap, (l.map Prod.snd).Nodup →
      (∀ p ∈ l, (l.foldl (fun m p => m.set p.2 (f p.1)) m).get p.2 = some (f p.1)) ∧
      (∀ q, q ∉ l.map Prod.snd → (l.foldl (fun m p => m.set p.2 (f p.1)) m).get q = m.get q) := by
  induction l with
  | nil => intro m _; simp
  | cons p rest ih =>
    intro m hnd
    obtain ⟨hp, hrest⟩ := List.nodup_cons.mp hnd
    obtain ⟨h1, h2⟩ := ih (m.set p.2 (f p.1)) hrest
    simp only [List.foldl_cons]
    constructor
    · intro p' hp'
      rcases List.mem_cons.mp hp' with rfl | hmem
      · rw [h2 _ hp, GoMap.get_set_self]
      · exact h1 p' hmem
    · intro q hq
      simp only [List.map_cons, List.mem_cons, not_or] at hq
      rw [h2 q hq.2, GoMap.get_set_of_ne _ _ hq.1]

theorem foldl_set_keys (f : Nat → Value) (l : List (Nat × queable)) :
    ∀ m : GoMap, (∀ p ∈ l, p.2 ∈ m.keys) →
      (l.foldl (fun m p => m.set p.2 (f p.1)) m).keys = m.keys := by
  induction l with
  | nil => intro m _; rfl
  | cons p rest ih =>
    intro m h
    have hk : (m.set p.2 (f p.1)).keys = m.keys :=
      GoMap.keys_set_of_mem m _ (h p (List.mem_cons_self _ _))
    simp only [List.foldl_cons]
    rw [ih _ (fun q hq => by rw [hk]; exact h q (List.mem_cons_of_mem _ hq)), hk]

/-- The outcome of `SendBatch` when the batch is sent and rows are scanned
until the item that follows `done`: `done` are the items whose rows scanned
without error. -/
theorem SendBatch_sent_ok (TracePublic : String) (b : batcher) (cache : clockcache.Cache)
    (conn : PgxConn) (br : BatchResults) (hne : cacheMisses cache b ≠ [])
    (hok : conn.SendBatch ((sortSort (cacheMisses cache b)).flatMap (enqueue TracePublic)) =
      .ok br) :
    b.SendBatch TracePublic cache conn =
      { b := { batch := (resultLoop (sortSort (cacheMisses cache b))
                { batch := (b.batch.keys.foldl (probeStep cache) (b.batch, [])).1
                  inserted := [], br := br, err := none }).batch }
        inserted := (resultLoop (sortSort (cacheMisses cache b))
                { batch := (b.batch.keys.foldl (probeStep cache) (b.batch, [])).1
                  inserted := [], br := br, err := none }).inserted
        sent := [(sortSort (cacheMisses cache b)).flatMap (enqueue TracePublic)]
        err := match (resultLoop (sortSort (cacheMisses cache b))
                { batch := (b.batch.keys.foldl (probeStep cache) (b.batch, [])).1
                  inserted := [], br := br, err := none }).err with
          | some e => some e
          | none => (resultLoop (sortSort (cacheMisses cache b))
                { batch := (b.batch.keys.foldl (probeStep cache) (b.batch, [])).1
                  inserted := [], br := br, err := none }).br.closeErr } := by
  unfold batcher.SendBatch
  have hm : (b.batch.keys.foldl (probeStep cache) (b.batch, [])).2 = cacheMisses cache b :=
    probe_misses cache b.batch
  have hl : ¬ (cacheMisses cache b).length = 0 := by rwa [List.length_eq_zero]
  simp only [hm, hl, if_false, hok]

theorem mem_sent_imp (TracePublic : String) (b : batcher) (cache : clockcache.Cache)
    (conn : PgxConn) (dbBatch : List Stmt)
    (h : dbBatch ∈ (b.SendBatch TracePublic cache conn).sent) :
    cacheMisses cache b ≠ [] ∧
    dbBatch = (sortSort (cacheMisses cache b)).flatMap (enqueue TracePublic) := by
  rw [SendBatch_sent] at h
  by_cases hm : cacheMisses cache b = []
  · simp [hm] at h
  · simp only [hm, if_false, List.mem_singleton] at h
    exact ⟨hm, h⟩

theorem not_mem_sortSort_misses_of_hit (cache : clockcache.Cache) (b : batcher) {q : queable}
    {v : Value} (hv : cache.Get q = some v) : q ∉ sortSort (cacheMisses cache b) := by
  intro h
  have := mem_sortSort.mp h
  simp [cacheMisses, List.mem_filter, hv] at this

theorem sortSort_misses_subset_keys (cache : clockcache.Cache) (b : batcher) {q : queable}
    (h : q ∈ sortSort (cacheMisses cache b)) : q ∈ b.batch.keys :=
  List.mem_of_mem_filter (mem_sortSort.mp h)

/-- C5. For a batcher (a map without repeated keys) whose queued items are of
one variant, and every cache state: when a batch is sent and the connection
answers it with results `br`, and every `Result` call (one per cache miss)
scans its row without error, then `SendBatch` has handed exactly that one
batch to the database and it has as many statements as there are cache
misses; afterwards `Get` returns, without error, the cached value for every
queued item that is a cache hit and, for the `k`-th cache miss in `Before`
order (`sorted[k]`, `sorted` being the strictly increasing arrangement of the
misses), the `k`-th row of `br`; each queued item is one or the other; and the
`cache.Insert` calls made are, in order, those of the misses with their rows
and sizes. -/
theorem SendBatch_resolves_every_item (TracePublic : String) (b : batcher)
    (cache : clockcache.Cache) (conn : PgxConn) (dbBatch : List Stmt) (br : BatchResults)
    (hwf : b.WellFormed) (hv : SingleVariant b.batch.keys)
    (hsend : dbBatch ∈ (b.SendBatch TracePublic cache conn).sent)
    (hok : conn.SendBatch dbBatch = .ok br)
    (hrows : ∀ k < (cacheMisses cache b).length, (br.rows (br.next + k)).2 = none) :
    (b.SendBatch TracePublic cache conn).sent = [dbBatch] ∧
    dbBatch.length = (cacheMisses cache b).length ∧
    (∀ q ∈ b.batch.keys, ∀ v, cache.Get q = some v →
      (b.SendBatch TracePublic cache conn).b.Get q = (v, none)) ∧
    ∃ sorted : List queable,
      sorted.Perm (cacheMisses cache b) ∧
      sorted.Pairwise (fun x y => x.Before y = true) ∧
      (∀ q ∈ b.batch.keys, (cache.Get q).isSome = true ∨ q ∈ sorted) ∧
      (∀ k item, sorted[k]? = some item →
        (b.SendBatch TracePublic cache conn).b.Get item =
          (.int8 (br.rows (br.next + k)).1, none)) ∧
      (b.SendBatch TracePublic cache conn).inserted =
        (sorted.enumFrom br.next).map (insertOf br.rows) := by
  obtain ⟨hne, hdb⟩ := mem_sent_imp TracePublic b cache conn dbBatch hsend
  subst hdb
  have hrows' : ∀ p ∈ (sortSort (cacheMisses cache b)).enumFrom br.next,
      (br.rows p.1).2 = none := by
    intro p hp
    have h1 := List.le_fst_of_mem_enumFrom hp
    have h2 := List.fst_lt_add_of_mem_enumFrom hp
    rw [length_sortSort] at h2
    have := hrows (p.1 - br.next) (by omega)
    rwa [Nat.add_sub_cancel' h1] at this
  obtain ⟨e1, e2, e3, e4⟩ := resultLoop_ok (sortSort (cacheMisses cache b))
    { batch := (b.batch.keys.foldl (probeStep cache) (b.batch, [])).1
      inserted := [], br := br, err := none } hrows'
  have hnd : (sortSort (cacheMisses cache b)).Nodup :=
    (sortSort_perm _).nodup_iff.mpr (cacheMisses_nodup cache b hwf)
  obtain ⟨g1, g2⟩ := foldl_set_get (fun k => Value.int8 (br.rows k).1)
    ((sortSort (cacheMisses cache b)).enumFrom br.next)
    (b.batch.keys.foldl (probeStep cache) (b.batch, [])).1
    (by rw [List.enumFrom_map_snd]; exact hnd)
  rw [SendBatch_sent_ok TracePublic b cache conn br hne hok]
  simp only [e2, e3, List.nil_append]
  refine ⟨trivial, ?_, ?_, sortSort (cacheMisses cache b), sortSort_perm _,
    sortSort_strict _ (cacheMisses_nodup cache b hwf) (cacheMisses_singleVariant cache b hv),
    ?_, ?_, rfl⟩
  · rw [flatMap_enqueue, List.length_map, length_sortSort]
  · intro q hq v hqv
    have hnot : q ∉ ((sortSort (cacheMisses cache b)).enumFrom br.next).map Prod.snd := by
      rw [List.enumFrom_map_snd]; exact not_mem_sortSort_misses_of_hit cache b hqv
    simp only [batcher.Get, g2 q hnot, probe_get_hit cache b.batch hq hqv]
  · intro q hq
    cases hc : cache.Get q with
    | some v => exact Or.inl rfl
    | none =>
      right
      rw [mem_sortSort]
      simp [cacheMisses, List.mem_filter, hq, hc]
  · intro k item hk
    have hmem : (br.next + k, item) ∈ (sortSort (cacheMisses cache b)).enumFrom br.next :=
      List.mk_add_mem_enumFrom_iff_getElem?.mpr hk
    have := g1 _ hmem
    simp only at this
    simp only [batcher.Get, this]

/-- Scenario S4 as an instance of C5: three schema URLs queued, two of them
cached; one batch of one statement is sent and `Get` returns an id for each of
the three. -/
theorem SendBatch_resolves_every_item_witness :
    batcherS4.WellFormed ∧ SingleVariant batcherS4.batch.keys ∧
    (batcherS4.SendBatch "ps_trace" cacheAB (okConn [7])).sent =
      [[{ sql := "SELECT ps_trace.put_schema_url($1)", args := [.schemaURL (ascii "c")] }]] ∧
    (batcherS4.SendBatch "ps_trace" cacheAB (okConn [7])).b.Get (.schemaURL (ascii "a")) =
      (.int8 { Int := 11, Status := pgtype.Present }, none) ∧
    (batcherS4.SendBatch "ps_trace" cacheAB (okConn [7])).b.Get (.schemaURL (ascii "b")) =
      (.int8 { Int := 12, Status := pgtype.Present }, none) ∧
    (batcherS4.SendBatch "ps_trace" cacheAB (okConn [7])).b.Get (.schemaURL (ascii "c")) =
      (.int8 { Int := 7, Status := pgtype.Present }, none) ∧
    ((batcherS4.SendBatch "ps_trace" cacheAB (okConn [7])).sent =
      [[{ sql := "SELECT ps_trace.put_schema_url($1)", args := [.schemaURL (ascii "c")] }]] ∧
    [({ sql := "SELECT ps_trace.put_schema_url($1)", args := [.schemaURL (ascii "c")] } :
        Stmt)].length = (cacheMisses cacheAB batcherS4).length ∧
    (∀ q ∈ batcherS4.batch.keys, ∀ v, cacheAB.Get q = some v →
      (batcherS4.SendBatch "ps_trace" cacheAB (okConn [7])).b.Get q = (v, none)) ∧
    ∃ sorted : List queable,
      sorted.Perm (cacheMisses cacheAB batcherS4) ∧
      sorted.Pairwise (fun x y => x.Before y = true) ∧
      (∀ q ∈ batcherS4.batch.keys, (cacheAB.Get q).isSome = true ∨ q ∈ sorted) ∧
      (∀ k item, sorted[k]? = some item →
        (batcherS4.SendBatch "ps_trace" cacheAB (okConn [7])).b.Get item =
          (.int8 ((okResults [7]).rows ((okResults [7]).next + k)).1, none)) ∧
      (batcherS4.SendBatch "ps_trace" cacheAB (okConn [7])).inserted =
        (sorted.enumFrom (okResults [7]).next).map (insertOf (okResults [7]).rows)) :=
  ⟨by decide, by decide, by decide, by decide, by decide, by decide,
    SendBatch_resolves_every_item "ps_trace" batcherS4 cacheAB (okConn [7])
      [{ sql := "SELECT ps_trace.put_schema_url($1)", args := [.schemaURL (ascii "c")] }]
      (okResults [7]) (by decide) (by decide) (by decide) rfl (fun _ _ => rfl)⟩

/-! ### `GetInt8` and `Get` -/

/-- C6. `GetInt8 item` returns an error exactly when the item is missing from
the local map, or its entry is not a `pgtype.Int8`, or the entry's status is
not `Present`, or its integer is 0; with an error the returned id is the null
id `{Status: Null}`, and without one it is the stored id, unchanged. -/
theorem GetInt8_error_iff (b : batcher) (i : queable) :
    ((b.GetInt8 i).2 ≠ none ↔
      (b.batch.get i = none ∨
       (∃ entry, b.batch.get i = some entry ∧ ∀ id, entry ≠ .int8 id) ∨
       (∃ id, b.batch.get i = some (.int8 id) ∧ id.Status ≠ pgtype.Present) ∨
       (∃ id, b.batch.get i = some (.int8 id) ∧ id.Int = 0))) ∧
    ((b.GetInt8 i).2 ≠ none →
      (b.GetInt8 i).1 = { Int := 0, Status := pgtype.Null } ∧
      (b.GetInt8 i).1.Status = pgtype.Null) ∧
    ((b.GetInt8 i).2 = none → b.batch.get i = some (.int8 (b.GetInt8 i).1)) := by
  unfold batcher.GetInt8
  cases hg : b.batch.get i with
  | none => simp
  | some entry =>
    cases entry with
    | nil => simp [errors.ErrInvalidCacheEntryType]
    | other tag => simp [errors.ErrInvalidCacheEntryType]
    | int8 id =>
      by_cases hs : id.Status = pgtype.Present
      · by_cases hz : id.Int = 0
        · simp [hs, hz]
        · simp [hs, hz]
      · simp [hs]

/-- C7, as the code has it. `Get item` returns an error exactly when the item
is not a key of the local map, that is, when it has not been queued on this
batcher; for a key of the map it returns the entry, without error; and the
entry of an item that has been queued and not resolved since is nil, so `Get`
then returns nil and no error. -/
theorem Get_error_iff_not_queued (b : batcher) (i : queable) :
    ((b.Get i).2 ≠ none ↔ i ∉ b.batch.keys) ∧
    (∀ entry, b.batch.get i = some entry → b.Get i = (entry, none)) ∧
    (b.Queue i).Get i = (.nil, none) := by
  refine ⟨?_, ?_, ?_⟩
  · rw [← GoMap.get_eq_none_iff]
    unfold batcher.Get
    cases hg : b.batch.get i <;> simp
  · intro entry hg
    simp [batcher.Get, hg]
  · simp [batcher.Get, batcher.Queue, GoMap.get_set_self]

/-- C7 fails as stated: an item that has been queued, with no `SendBatch` at
all, has no resolved result, and `Get` returns nil for it without an error. -/
theorem Get_unresolved_no_error :
    (newBatcher.Queue (.schemaURL (ascii "a"))).Get (.schemaURL (ascii "a")) = (.nil, none) ∧
    ((newBatcher.Queue (.schemaURL (ascii "a"))).Get (.schemaURL (ascii "a"))).2 = none := by
  decide

theorem not_mem_take_of_le {l : List queable} (hnd : l.Nodup) {j k : Nat} {x : queable}
    (hk : l[k]? = some x) (hjk : j ≤ k) : x ∉ l.take j := by
  intro hmem
  obtain ⟨hkl, hkx⟩ := List.getElem?_eq_some_iff.mp hk
  obtain ⟨i, hi, hix⟩ := List.mem_take_iff_getElem.mp hmem
  have hi' : i < l.length := lt_of_lt_of_le hi (min_le_right _ _)
  have hij : i < j := lt_of_lt_of_le hi (min_le_left _ _)
  have : l[i] = l[k] := by rw [hix, hkx]
  have := (@List.Nodup.getElem_inj_iff _ l hnd i hi' k hkl).mp this
  omega

/-- C8, as the code has it. When a batch is sent and the `Result` call of the
`j`-th cache miss in `Before` order is the first that fails, with error `e`:
`SendBatch` returns `e`; the failing item and the items after it are not
inserted into the cache and their entries in the local map are what they were
before the call; the `j` items before it have been inserted into the cache
and stored in the local map, each with its row. (With `j = 0` nothing of the
batch is stored or inserted.) -/
theorem SendBatch_first_Result_error (TracePublic : String) (b : batcher)
    (cache : clockcache.Cache) (conn : PgxConn) (dbBatch : List Stmt) (br : BatchResults)
    (j : Nat) (e : GoError) (hwf : b.WellFormed)
    (hsend : dbBatch ∈ (b.SendBatch TracePublic cache conn).sent)
    (hok : conn.SendBatch dbBatch = .ok br)
    (hj : j < (cacheMisses cache b).length)
    (hfirst : ∀ k < j, (br.rows (br.next + k)).2 = none)
    (hfail : (br.rows (br.next + j)).2 = some e) :
    (b.SendBatch TracePublic cache conn).err = some e ∧
    (b.SendBatch TracePublic cache conn).inserted =
      (((sortSort (cacheMisses cache b)).take j).enumFrom br.next).map (insertOf br.rows) ∧
    (∀ k item, k < j → (sortSort (cacheMisses cache b))[k]? = some item →
      (b.SendBatch TracePublic cache conn).b.Get item =
        (.int8 (br.rows (br.next + k)).1, none)) ∧
    (∀ k item, j ≤ k → (sortSort (cacheMisses cache b))[k]? = some item →
      (b.SendBatch TracePublic cache conn).b.batch.get item = b.batch.get item ∧
      ∀ ins ∈ (b.SendBatch TracePublic cache conn).inserted, ins.key ≠ item) := by
  obtain ⟨hne, hdb⟩ := mem_sent_imp TracePublic b cache conn dbBatch hsend
  subst hdb
  have hjs : j < (sortSort (cacheMisses cache b)).length := by rwa [length_sortSort]
  have hsplit : sortSort (cacheMisses cache b) =
      (sortSort (cacheMisses cache b)).take j ++
        (sortSort (cacheMisses cache b))[j] :: (sortSort (cacheMisses cache b)).drop (j + 1) := by
    rw [← List.drop_eq_getElem_cons hjs, List.take_append_drop]
  have hlen : ((sortSort (cacheMisses cache b)).take j).length = j := by
    rw [List.length_take]; omega
  have hrows' : ∀ p ∈ ((sortSort (cacheMisses cache b)).take j).enumFrom br.next,
      (br.rows p.1).2 = none := by
    intro p hp
    have h1 := List.le_fst_of_mem_enumFrom hp
    have h2 := List.fst_lt_add_of_mem_enumFrom hp
    rw [hlen] at h2
    have := hfirst (p.1 - br.next) (by omega)
    rwa [Nat.add_sub_cancel' h1] at this
  obtain ⟨e1, e2, e3, e4⟩ := resultLoop_ok ((sortSort (cacheMisses cache b)).take j)
    { batch := (b.batch.keys.foldl (probeStep cache) (b.batch, [])).1
      inserted := [], br := br, err := none } hrows'
  have happ := resultLoop_append ((sortSort (cacheMisses cache b)).take j)
    ((sortSort (cacheMisses cache b))[j] :: (sortSort (cacheMisses cache b)).drop (j + 1))
    { batch := (b.batch.keys.foldl (probeStep cache) (b.batch, [])).1
      inserted := [], br := br, err := none } hrows'
  rw [← hsplit] at happ
  have hfail' : ((resultLoop ((sortSort (cacheMisses cache b)).take j)
      { batch := (b.batch.keys.foldl (probeStep cache) (b.batch, [])).1
        inserted := [], br := br, err := none }).br.rows
      (resultLoop ((sortSort (cacheMisses cache b)).take j)
      { batch := (b.batch.keys.foldl (probeStep cache) (b.batch, [])).1
        inserted := [], br := br, err := none }).br.next).2 = some e := by
    rw [e4]; simp only [hlen]; exact hfail
  obtain ⟨f1, f2, f3⟩ := resultLoop_fail (sortSort (cacheMisses cache b))[j]
    ((sortSort (cacheMisses cache b)).drop (j + 1)) _ e hfail'
  rw [← happ] at f1 f2 f3
  have hnd : (sortSort (cacheMisses cache b)).Nodup :=
    (sortSort_perm _).nodup_iff.mpr (cacheMisses_nodup cache b hwf)
  have hndt : ((sortSort (cacheMisses cache b)).take j).Nodup :=
    hnd.sublist (List.take_sublist _ _)
  obtain ⟨g1, g2⟩ := foldl_set_get (fun k => Value.int8 (br.rows k).1)
    (((sortSort (cacheMisses cache b)).take j).enumFrom br.next)
    (b.batch.keys.foldl (probeStep cache) (b.batch, [])).1
    (by rw [List.enumFrom_map_snd]; exact hndt)
  rw [SendBatch_sent_ok TracePublic b cache conn br hne hok]
  simp only [f1, f2, f3, e2, e3, List.nil_append]
  refine ⟨trivial, trivial, ?_, ?_⟩
  · intro k item hk hitem
    have htake : ((sortSort (cacheMisses cache b)).take j)[k]? = some item := by
      rw [List.getElem?_take_of_lt hk]; exact hitem
    have hmem : (br.next + k, item) ∈
        ((sortSort (cacheMisses cache b)).take j).enumFrom br.next :=
      List.mk_add_mem_enumFrom_iff_getElem?.mpr htake
    have := g1 _ hmem
    simp only at this
    simp only [batcher.Get, this]
  · intro k item hk hitem
    have hnot : item ∉ (sortSort (cacheMisses cache b)).take j :=
      not_mem_take_of_le hnd hitem hk
    have hmiss : cache.Get item = none := by
      have := mem_sortSort.mp (List.getElem?_mem hitem)
      simp only [cacheMisses, List.mem_filter, Option.isNone_iff_eq_none] at this
      exact this.2
    constructor
    · rw [g2 item (by rw [List.enumFrom_map_snd]; exact hnot)]
      exact probe_get_miss cache b.batch (Or.inr hmiss)
    · intro ins hins hkey
      rw [List.mem_map] at hins
      obtain ⟨p, hp, rfl⟩ := hins
      have := List.snd_mem_of_mem_enumFrom hp
      simp only [insertOf] at hkey
      rw [hkey] at this
      exact hnot this

/-- C8 fails as stated: with the schema URLs "a" and "b" queued and not cached,
the row of "a" scanned as the id 7 and the row of "b" failing, `SendBatch`
returns the error of "b", and yet "a" has been inserted into the cache and
`Get` returns its database id from the local map. -/
theorem SendBatch_error_keeps_earlier_results :
    (batcherS1.SendBatch "ps_trace" ⟨[]⟩ secondRowFailsConn).err = some (.external 2) ∧
    (batcherS1.SendBatch "ps_trace" ⟨[]⟩ secondRowFailsConn).inserted =
      [{ key := .schemaURL (ascii "a"),
         value := .int8 { Int := 7, Status := pgtype.Present }, size := 10 }] ∧
    (batcherS1.SendBatch "ps_trace" ⟨[]⟩ secondRowFailsConn).b.Get (.schemaURL (ascii "a")) =
      (.int8 { Int := 7, Status := pgtype.Present }, none) := by
  decide

/-- An instance of C8 as the code has it: the schema URLs "a" and "b" queued and
not cached, where the second `Result` call is the first that fails. -/
theorem SendBatch_first_Result_error_witness :
    batcherS1.WellFormed ∧
    1 < (cacheMisses ⟨[]⟩ batcherS1).length ∧
    ((batcherS1.SendBatch "ps_trace" ⟨[]⟩ secondRowFailsConn).err = some (.external 2) ∧
    (batcherS1.SendBatch "ps_trace" ⟨[]⟩ secondRowFailsConn).inserted =
      (((sortSort (cacheMisses ⟨[]⟩ batcherS1)).take 1).enumFrom secondRowFails.next).map
        (insertOf secondRowFails.rows) ∧
    (∀ k item, k < 1 → (sortSort (cacheMisses ⟨[]⟩ batcherS1))[k]? = some item →
      (batcherS1.SendBatch "ps_trace" ⟨[]⟩ secondRowFailsConn).b.Get item =
        (.int8 (secondRowFails.rows (secondRowFails.next + k)).1, none)) ∧
    (∀ k item, 1 ≤ k → (sortSort (cacheMisses ⟨[]⟩ batcherS1))[k]? = some item →
      (batcherS1.SendBatch "ps_trace" ⟨[]⟩ secondRowFailsConn).b.batch.get item =
        batcherS1.batch.get item ∧
      ∀ ins ∈ (batcherS1.SendBatch "ps_trace" ⟨[]⟩ secondRowFailsConn).inserted,
        ins.key ≠ item)) :=
  ⟨by decide, by decide,
    SendBatch_first_Result_error "ps_trace" batcherS1 ⟨[]⟩ secondRowFailsConn
      [{ sql := "SELECT ps_trace.put_schema_url($1)", args := [.schemaURL (ascii "a")] },
       { sql := "SELECT ps_trace.put_schema_url($1)", args := [.schemaURL (ascii "b")] }]
      secondRowFails 1 (.external 2) (by decide) (by decide) rfl (by decide)
      (fun k hk => by
        have hk0 : k = 0 := by omega
        subst hk0
        rfl)
      rfl⟩

/-! ### The façades: empty schema URL, empty library name -/

theorem keys_Queue_subset (b : batcher) (i q : queable) (h : q ∈ (b.Queue i).batch.keys) :
    q ∈ b.batch.keys ∨ q = i := by
  by_cases hi : i ∈ b.batch.keys
  · left
    simp only [batcher.Queue] at h
    rwa [GoMap.keys_set_of_mem _ _ hi] at h
  · simp only [batcher.Queue] at h
    rw [GoMap.keys_set_of_not_mem _ _ hi, List.mem_append, List.mem_singleton] at h
    exact h

theorem schemaURL_queued_ne_empty (urls : List GoString) :
    ∀ s : schemaURLBatch, queable.schemaURL [] ∉ s.b.batch.keys →
      queable.schemaURL [] ∉ (urls.foldl schemaURLBatch.Queue s).b.batch.keys := by
  induction urls with
  | nil => intro s h; exact h
  | cons u us ih =>
    intro s h
    simp only [List.foldl_cons]
    apply ih
    unfold schemaURLBatch.Queue
    by_cases hu : u = []
    · simp only [hu, if_true]; exact h
    · simp only [hu, if_false]
      intro hmem
      rcases keys_Queue_subset _ _ _ hmem with h1 | h1
      · exact h h1
      · exact hu (by injection h1 with h2; exact h2.symm)

theorem instrumentationLibrary_queued_ne_empty
    (libs : List (GoString × GoString × pgtype.Int8)) :
    ∀ ilb : instrumentationLibraryBatch,
      (∀ q ∈ ilb.b.batch.keys, ∀ il, q = queable.instrumentationLibrary il → il.name ≠ []) →
      ∀ q ∈ (libs.foldl (fun acc l => acc.Queue l.1 l.2.1 l.2.2) ilb).b.batch.keys,
        ∀ il, q = queable.instrumentationLibrary il → il.name ≠ [] := by
  induction libs with
  | nil => intro ilb h; exact h
  | cons l ls ih =>
    intro ilb h
    simp only [List.foldl_cons]
    apply ih
    unfold instrumentationLibraryBatch.Queue
    by_cases hn : l.1 = []
    · simp only [hn, if_true]; exact h
    · simp only [hn, if_false]
      intro q hq il hil
      rcases keys_Queue_subset _ _ _ hq with h1 | h1
      · exact h q h1 il hil
      · rw [h1] at hil
        injection hil with h2
        rw [← h2]
        exact hn

theorem stmt_mem_sent (TracePublic : String) (b : batcher) (cache : clockcache.Cache)
    (conn : PgxConn) (dbBatch : List Stmt) (q : queable)
    (hdb : dbBatch ∈ (b.SendBatch TracePublic cache conn).sent)
    (hq : q.stmt TracePublic ∈ dbBatch) : q ∈ b.batch.keys := by
  obtain ⟨_, rfl⟩ := mem_sent_imp TracePublic b cache conn dbBatch hdb
  rw [flatMap_enqueue, List.mem_map] at hq
  obtain ⟨q', hq', heq⟩ := hq
  rw [← stmt_injective TracePublic heq]
  exact sortSort_misses_subset_keys cache b hq'

/-- C9. For every state of a schema URL batch and of an instrumentation
library batch: `Queue` with the empty schema URL, or with an empty library
name (any version and schema URL id), returns the batch unchanged, so the
following `SendBatch` does what it does without that call; `GetID` for that
input returns the null id `{Status: Null}` and no error, whatever the batch
holds; and after any sequence of `Queue` calls on a new batch no statement that
`SendBatch` hands to the database is the statement of the empty schema URL, or
of a library with an empty name. -/
theorem Queue_GetID_empty (TracePublic : String) (cache : clockcache.Cache) (conn : PgxConn)
    (s : schemaURLBatch) (ilb : instrumentationLibraryBatch) (version : GoString)
    (schemaURLID : pgtype.Int8) :
    s.Queue [] = s ∧
    (s.Queue []).SendBatch TracePublic cache conn = s.SendBatch TracePublic cache conn ∧
    s.GetID [] = ({ Int := 0, Status := pgtype.Null }, none) ∧
    ilb.Queue [] version schemaURLID = ilb ∧
    (ilb.Queue [] version schemaURLID).SendBatch TracePublic cache conn =
      ilb.SendBatch TracePublic cache conn ∧
    ilb.GetID [] version schemaURLID = ({ Int := 0, Status := pgtype.Null }, none) ∧
    (∀ urls : List GoString,
      ∀ dbBatch ∈ ((urls.foldl schemaURLBatch.Queue newSchemaUrlBatch).SendBatch
          TracePublic cache conn).sent,
        (queable.schemaURL []).stmt TracePublic ∉ dbBatch) ∧
    (∀ libs : List (GoString × GoString × pgtype.Int8),
      ∀ dbBatch ∈ ((libs.foldl (fun acc l => acc.Queue l.1 l.2.1 l.2.2)
          newInstrumentationLibraryBatch).SendBatch TracePublic cache conn).sent,
        (queable.instrumentationLibrary
          { name := [], version := version, schemaURLID := schemaURLID }).stmt TracePublic
          ∉ dbBatch) := by
  refine ⟨rfl, rfl, rfl, rfl, rfl, rfl, ?_, ?_⟩
  · intro urls dbBatch hdb hmem
    have hk := stmt_mem_sent TracePublic _ cache conn dbBatch _ hdb hmem
    exact schemaURL_queued_ne_empty urls newSchemaUrlBatch
      (by simp [newSchemaUrlBatch, newBatcher, GoMap.keys]) hk
  · intro libs dbBatch hdb hmem
    have hk := stmt_mem_sent TracePublic _ cache conn dbBatch _ hdb hmem
    exact instrumentationLibrary_queued_ne_empty libs newInstrumentationLibraryBatch
      (by simp [newInstrumentationLibraryBatch, newBatcher, GoMap.keys]) _ hk _ rfl rfl

/-! ### The metric batcher: table resolution -/

/-- When `metricTableName` returns no error the table name is not empty. -/
theorem metricTableName_ok_ne_empty (query : Except GoError Rows)
    (h : (metricTableName query).2.2 = none) : (metricTableName query).1 ≠ [] := by
  unfold metricTableName at h ⊢
  cases query with
  | error err => simp at h
  | ok res =>
    obtain ⟨next, err, ⟨⟨t, pn⟩, serr⟩⟩ := res
    cases next <;> cases err <;> cases serr <;> simp at h ⊢
    · by_cases ht : t = []
      · simp [ht] at h
      · simp [ht]

/-- When `initializeMetricBatcher` returns no error the table name is not empty. -/
theorem initializeMetricBatcher_ok_ne_empty (env : InitEnv)
    (h : (initializeMetricBatcher env).err = none) :
    (initializeMetricBatcher env).tableName ≠ [] := by
  unfold initializeMetricBatcher at h ⊢
  by_cases hc : env.cacheGet.2 = none ∧ env.cacheGet.1.TableName ≠ []
  · rw [if_pos hc]
    exact hc.2
  · rw [if_neg hc] at h ⊢
    by_cases he : (metricTableName env.query).2.2 ≠ none ∨ (metricTableName env.query).1 = []
    · simp only [he, if_true] at h
      have := metricTableName_ok_ne_empty env.query h
      rcases he with he | he
      · exact absurd h he
      · exact absurd he this
    · simp only [he, if_false]
      exact fun h' => he (Or.inr h')

/-- A store that answers with a row whose table name is empty, the name not
being cached, makes `initializeMetricBatcher` fail. -/
theorem initializeMetricBatcher_empty_name (env : InitEnv) (res : Rows)
    (possiblyNew : Bool)
    (hcache : ¬ (env.cacheGet.2 = none ∧ env.cacheGet.1.TableName ≠ []))
    (hq : env.query = .ok res) (hnext : res.Next = true)
    (hscan : res.Scan = (([], possiblyNew), none)) :
    (initializeMetricBatcher env).err ≠ none := by
  unfold initializeMetricBatcher
  rw [if_neg hcache]
  have : (metricTableName env.query).2.2 ≠ none := by
    unfold metricTableName
    rw [hq]
    simp only [hnext, hscan]
    cases res.Err <;> simp
  simp [this]

/-! ### The metric batcher: the startup loop -/

theorem startupLoop_spec {Req : Type} (envs : Nat → InitEnv) (input : List (Recv Req)) :
    ∀ (st : Startup Req) (k : Nat),
      k ≤ (requests input).length →
      (∀ n < k, (initializeMetricBatcher (envs (st.inits.length + n))).err ≠ none) →
      (k < (requests input).length →
        (initializeMetricBatcher (envs (st.inits.length + k))).err = none) →
      (startupLoop envs input st).reports =
        st.reports ++ (((requests input).take k).enumFrom st.inits.length).map
          (fun p => (p.2, startupError (initializeMetricBatcher (envs p.1)).err)) ∧
      (startupLoop envs input st).inits =
        st.inits ++ (List.range' st.inits.length (min (k + 1) (requests input).length)).map
          (fun n => initializeMetricBatcher (envs n)) ∧
      (k = (requests input).length →
        (startupLoop envs input st).firstReqSet = st.firstReqSet) ∧
      (k < (requests input).length →
        (startupLoop envs input st).firstReqSet = true ∧
        (startupLoop envs input st).firstReq = (requests input)[k]? ∧
        (startupLoop envs input st).tableName =
          (initializeMetricBatcher (envs (st.inits.length + k))).tableName ∧
        requests (startupLoop envs input st).input = (requests input).drop (k + 1)) := by
  induction input with
  | nil =>
    intro st k hk _ _
    simp only [requests, List.length_nil, Nat.le_zero] at hk
    subst hk
    simp [startupLoop, requests]
  | cons ev rest ih =>
    intro st k hk hfail hsucc
    cases ev with
    | empty =>
      simp only [requests] at hk hsucc ⊢
      simp only [startupLoop]
      exact ih st k hk hfail hsucc
    | req r =>
      simp only [requests, List.length_cons] at hk hsucc ⊢
      cases k with
      | zero =>
        have h0 := hsucc (Nat.succ_pos _)
        simp only [Nat.add_zero] at h0
        simp [startupLoop, h0, List.range'_one]
      | succ k' =>
        have h0 := hfail 0 (Nat.succ_pos _)
        simp only [Nat.add_zero] at h0
        obtain ⟨err, herr⟩ := Option.ne_none_iff_exists'.mp h0
        have hk' : k' ≤ (requests rest).length := by omega
        obtain ⟨i1, i2, i3, i4⟩ := ih
          { st with
            tableName := (initializeMetricBatcher (envs st.inits.length)).tableName
            firstReq := some r
            reports := st.reports ++
              [(r, some (.wrap
                "initializing the insert routine for metric %v has failed with %w" err))]
            inits := st.inits ++ [initializeMetricBatcher (envs st.inits.length)] } k' hk'
          (by
            intro n hn
            have := hfail (n + 1) (by omega)
            simp only [List.length_append, List.length_singleton]
            rwa [show st.inits.length + 1 + n = st.inits.length + (n + 1) by omega])
          (by
            intro hlt
            have := hsucc (by omega)
            simp only [List.length_append, List.length_singleton]
            rwa [show st.inits.length + 1 + k' = st.inits.length + (k' + 1) by omega])
        simp only [List.length_append, List.length_singleton] at i1 i2 i3 i4
        have hstep : startupLoop envs (Recv.req r :: rest) st =
            startupLoop envs rest
              { st with
                tableName := (initializeMetricBatcher (envs st.inits.length)).tableName
                firstReq := some r
                reports := st.reports ++
                  [(r, some (.wrap
                    "initializing the insert routine for metric %v has failed with %w" err))]
                inits := st.inits ++ [initializeMetricBatcher (envs st.inits.length)] } := by
          simp [startupLoop, herr]
        rw [hstep]
        refine ⟨?_, ?_, ?_, ?_⟩
        · rw [i1]
          simp [List.enumFrom_cons, startupError, herr]
        · rw [i2]
          have hmin : min (k' + 1 + 1) ((requests rest).length + 1) =
              min (k' + 1) (requests rest).length + 1 := by omega
          rw [hmin, List.range'_succ]
          simp
        · intro hkl
          exact i3 (by omega)
        · intro hkl
          obtain ⟨j1, j2, j3, j4⟩ := i4 (by omega)
          refine ⟨j1, ?_, ?_, ?_⟩
          · rw [j2]; simp
          · rw [j3, show st.inits.length + 1 + k' = st.inits.length + (k' + 1) by omega]
          · rw [j4]; simp

/-! ### The metric batcher: what is added to pending buffers -/

theorem added_flushPending {Req : Type} (h : metricBatcher Req) :
    h.flushPending.added = h.added ∧ h.flushPending.input = h.input := by
  simp [metricBatcher.flushPending, metricBatcher.added, NewPendingBuffer]

theorem added_flush {Req : Type} (IsEmpty : pendingBuffer Req → Bool) (h : metricBatcher Req) :
    (h.flush IsEmpty).added = h.added ∧ (h.flush IsEmpty).input = h.input := by
  unfold metricBatcher.flush
  by_cases he : IsEmpty h.pending = true
  · simp [he]
  · simp only [he]
    exact added_flushPending h

theorem added_handleReq {Req : Type} (IsFull : pendingBuffer Req → Bool)
    (h : metricBatcher Req) (req : Option Req) :
    (h.handleReq IsFull req).1.added = h.added ++ [req] ∧
    (h.handleReq IsFull req).1.input = h.input := by
  have key : h.handleReq IsFull req =
      if IsFull (h.pending.addReq req) = true then
        (({ h with pending := h.pending.addReq req } : metricBatcher Req).flushPending, true)
      else ({ h with pending := h.pending.addReq req }, false) := rfl
  rw [key]
  by_cases hf : IsFull (h.pending.addReq req) = true
  · rw [if_pos hf]
    have := added_flushPending { h with pending := h.pending.addReq req }
    rw [this.1, this.2]
    simp [metricBatcher.added, pendingBuffer.addReq]
  · rw [if_neg hf]
    simp [metricBatcher.added, pendingBuffer.addReq]

theorem recvBlocking_requests {Req : Type} (input : List (Recv Req)) :
    ((recvBlocking input).2.1 = true →
      ∃ r, (recvBlocking input).1 = some r ∧
        requests input = r :: requests (recvBlocking input).2.2) ∧
    ((recvBlocking input).2.1 = false →
      requests input = [] ∧ (recvBlocking input).2.2 = []) := by
  induction input with
  | nil => simp [recvBlocking, requests]
  | cons ev rest ih =>
    cases ev with
    | empty => simpa [recvBlocking, requests] using ih
    | req r => simp [recvBlocking, requests]

theorem added_blockingHandleReq {Req : Type} (IsFull : pendingBuffer Req → Bool)
    (h : metricBatcher Req) :
    ∃ more, (h.blockingHandleReq IsFull).1.added = h.added ++ more ∧
      more.reduceOption ++ requests (h.blockingHandleReq IsFull).1.input = requests h.input := by
  have key : h.blockingHandleReq IsFull =
      if (!(recvBlocking h.input).2.1) = true then
        ({ h with input := (recvBlocking h.input).2.2 }, false)
      else ((metricBatcher.handleReq IsFull { h with input := (recvBlocking h.input).2.2 }
        (recvBlocking h.input).1).1, true) := rfl
  rw [key]
  obtain ⟨h1, h2⟩ := recvBlocking_requests h.input
  by_cases hok : (recvBlocking h.input).2.1 = true
  · obtain ⟨r, hr, hreq⟩ := h1 hok
    obtain ⟨a1, a2⟩ := added_handleReq IsFull
      { h with input := (recvBlocking h.input).2.2 } (recvBlocking h.input).1
    rw [if_neg (by simp [hok])]
    refine ⟨[some r], ?_, ?_⟩
    · show (metricBatcher.handleReq IsFull { h with input := (recvBlocking h.input).2.2 }
        (recvBlocking h.input).1).1.added = h.added ++ [some r]
      rw [a1, hr]; rfl
    · show [some r].reduceOption ++ requests (metricBatcher.handleReq IsFull
        { h with input := (recvBlocking h.input).2.2 } (recvBlocking h.input).1).1.input =
          requests h.input
      rw [a2, hreq]
      simp [List.reduceOption_cons_of_some]
  · have hok' : (recvBlocking h.input).2.1 = false := by simpa using hok
    obtain ⟨e1, e2⟩ := h2 hok'
    rw [if_pos (by simp [hok'])]
    refine ⟨[], ?_, ?_⟩
    · simp [metricBatcher.added]
    · simp [e1, e2, requests]

theorem added_nonblockingHandleReq {Req : Type} (IsFull : pendingBuffer Req → Bool)
    (h : metricBatcher Req) :
    ∃ more, (h.nonblockingHandleReq IsFull).1.added = h.added ++ more ∧
      more.reduceOption ++ requests (h.nonblockingHandleReq IsFull).1.input =
        requests h.input := by
  unfold metricBatcher.nonblockingHandleReq
  cases hin : h.input with
  | nil =>
    obtain ⟨a1, a2⟩ := added_handleReq IsFull { h with input := [] } none
    refine ⟨[none], ?_, ?_⟩
    · simp only [recvNonblocking, a1]; rfl
    · simp only [recvNonblocking, a2]
      simp [requests]
  | cons ev rest =>
    cases ev with
    | empty =>
      refine ⟨[], ?_, ?_⟩
      · simp [recvNonblocking, metricBatcher.added]
      · simp [recvNonblocking, requests]
    | req r =>
      obtain ⟨a1, a2⟩ := added_handleReq IsFull { h with input := rest } (some r)
      refine ⟨[some r], ?_, ?_⟩
      · simp only [recvNonblocking, a1]; rfl
      · simp only [recvNonblocking, a2]
        simp [requests, List.reduceOption_cons_of_some]

theorem added_step {Req : Type} (IsEmpty IsFull : pendingBuffer Req → Bool) (w : Worker Req) :
    ∃ more, (w.step IsEmpty IsFull).h.added = w.h.added ++ more ∧
      more.reduceOption ++ requests (w.step IsEmpty IsFull).h.input = requests w.h.input := by
  unfold Worker.step
  cases hpc : w.pc with
  | returned => exact ⟨[], by simp, by simp⟩
  | loop =>
    by_cases he : IsEmpty w.h.pending = true
    · simp only [he, if_true]
      obtain ⟨more, m1, m2⟩ := added_blockingHandleReq IsFull w.h
      refine ⟨more, ?_, ?_⟩
      · by_cases hb : (w.h.blockingHandleReq IsFull).2 = true <;> simp [hb, m1]
      · by_cases hb : (w.h.blockingHandleReq IsFull).2 = true <;> simp [hb, m2]
    · simp only [he]
      exact ⟨[], by simp, by simp⟩
  | hotReceive =>
    obtain ⟨more, m1, m2⟩ := added_nonblockingHandleReq IsFull w.h
    refine ⟨more, ?_, ?_⟩
    · cases hres : w.h.nonblockingHandleReq IsFull with
      | mk h' got =>
        rw [hres] at m1
        cases got
        · simp only [(added_flush IsEmpty h').1]; exact m1
        · by_cases hf : IsFull h'.pending = true
          · simp only [hf, if_true, (added_flush IsEmpty h').1]; exact m1
          · simp only [hf]; exact m1
    · cases hres : w.h.nonblockingHandleReq IsFull with
      | mk h' got =>
        rw [hres] at m2
        cases got
        · simp only [(added_flush IsEmpty h').2]; exact m2
        · by_cases hf : IsFull h'.pending = true
          · simp only [hf, if_true, (added_flush IsEmpty h').2]; exact m2
          · simp only [hf]; exact m2

theorem added_run {Req : Type} (IsEmpty IsFull : pendingBuffer Req → Bool) (fuel : Nat) :
    ∀ w : Worker Req,
      ∃ more, (Worker.run IsEmpty IsFull fuel w).h.added = w.h.added ++ more ∧
        more.reduceOption ++ requests (Worker.run IsEmpty IsFull fuel w).h.input =
          requests w.h.input := by
  induction fuel with
  | zero => intro w; exact ⟨[], by simp [Worker.run], by simp [Worker.run]⟩
  | succ n ih =>
    intro w
    obtain ⟨m1, a1, b1⟩ := added_step IsEmpty IsFull w
    obtain ⟨m2, a2, b2⟩ := ih (w.step IsEmpty IsFull)
    refine ⟨m1 ++ m2, ?_, ?_⟩
    · simp only [Worker.run, a2, a1, List.append_assoc]
    · simp only [Worker.run]
      rw [List.reduceOption_append, List.append_assoc, b2, b1]

theorem afterStartup_reports {Req : Type} (IsEmpty IsFull : pendingBuffer Req → Bool)
    (fuel : Nat) (st : Startup Req) :
    (afterStartup IsEmpty IsFull fuel st).reports = st.reports ∧
    (afterStartup IsEmpty IsFull fuel st).inits = st.inits := by
  unfold afterStartup
  cases st.firstReqSet <;> simp

theorem afterStartup_not_set {Req : Type} (IsEmpty IsFull : pendingBuffer Req → Bool)
    (fuel : Nat) (st : Startup Req) (h : st.firstReqSet = false) :
    (afterStartup IsEmpty IsFull fuel st).worker = none := by
  unfold afterStartup
  simp [h]

theorem afterStartup_added {Req : Type} (IsEmpty IsFull : pendingBuffer Req → Bool)
    (fuel : Nat) (st : Startup Req) (h : st.firstReqSet = true) :
    ∃ more rest, (afterStartup IsEmpty IsFull fuel st).added = st.firstReq :: more ∧
      more.reduceOption ++ rest = requests st.input := by
  obtain ⟨a1, a2⟩ := added_handleReq IsFull
    ({ input := st.input, pending := NewPendingBuffer, metricTableName := st.tableName,
       toCopiers := [] } : metricBatcher Req) st.firstReq
  obtain ⟨more, m1, m2⟩ := added_run IsEmpty IsFull fuel
    { h := (metricBatcher.handleReq IsFull
        ({ input := st.input, pending := NewPendingBuffer, metricTableName := st.tableName,
           toCopiers := [] } : metricBatcher Req) st.firstReq).1
      pc := .loop }
  rw [a1] at m1
  rw [a2] at m2
  refine ⟨more, _, ?_, m2⟩
  unfold afterStartup
  simp only [h, Bool.not_true, Bool.false_eq_true, if_false, RunResult.added, Worker.added]
  rw [m1]
  simp [metricBatcher.added, NewPendingBuffer]

/-- C10. The startup phase of `runMetricBatcher`, for every input channel, every
pair of pending-buffer checks and every number of steps of the steady loop.
Let the first `k` table resolutions fail and, if there is a `k`-th request, let
its resolution succeed. Then: the `reportResult` calls are exactly one for each
of the first `k` requests, in order, each with the (non-nil) wrapped error of
its resolution; one resolution is tried per request up to the first success;
what is ever added to a pending buffer (held or sent to the copiers) are
requests from the `k`-th on, in order, the `k`-th being the first added; if no
resolution succeeds before the channel is closed the function returns without
a handler, having sent nothing to the copiers; and a store that answers with
an empty table name (the name not being cached) is a failed resolution. -/
theorem runMetricBatcher_startup {Req : Type} (IsEmpty IsFull : pendingBuffer Req → Bool)
    (envs : Nat → InitEnv) (input : List (Recv Req)) (fuel k : Nat)
    (hk : k ≤ (requests input).length)
    (hfail : ∀ n < k, (initializeMetricBatcher (envs n)).err ≠ none)
    (hsucc : k < (requests input).length → (initializeMetricBatcher (envs k)).err = none) :
    (runMetricBatcher IsEmpty IsFull envs input fuel).reports =
      ((requests input).take k).enum.map
        (fun p => (p.2, startupError (initializeMetricBatcher (envs p.1)).err)) ∧
    (∀ p ∈ (runMetricBatcher IsEmpty IsFull envs input fuel).reports, p.2 ≠ none) ∧
    (runMetricBatcher IsEmpty IsFull envs input fuel).inits =
      (List.range (min (k + 1) (requests input).length)).map
        (fun n => initializeMetricBatcher (envs n)) ∧
    (runMetricBatcher IsEmpty IsFull envs input fuel).added.reduceOption <+:
      (requests input).drop k ∧
    (k < (requests input).length →
      (runMetricBatcher IsEmpty IsFull envs input fuel).added.head? =
        some (requests input)[k]?) ∧
    (k = (requests input).length →
      (runMetricBatcher IsEmpty IsFull envs input fuel).worker = none ∧
      (runMetricBatcher IsEmpty IsFull envs input fuel).returned = true ∧
      (runMetricBatcher IsEmpty IsFull envs input fuel).toCopiers = [] ∧
      (runMetricBatcher IsEmpty IsFull envs input fuel).added = []) ∧
    (∀ (env : InitEnv) (res : Rows) (possiblyNew : Bool),
      ¬ (env.cacheGet.2 = none ∧ env.cacheGet.1.TableName ≠ []) →
      env.query = .ok res → res.Next = true → res.Scan = (([], possiblyNew), none) →
      (initializeMetricBatcher env).err ≠ none) := by
  obtain ⟨s1, s2, s3, s4⟩ := startupLoop_spec envs input
    { tableName := [], firstReq := none, firstReqSet := false, input := input,
      reports := [], inits := [] } k hk
    (by intro n hn; simpa using hfail n hn)
    (by intro hlt; simpa using hsucc hlt)
  simp only [List.length_nil, List.nil_append, Nat.zero_add] at s1 s2 s3 s4
  unfold runMetricBatcher
  generalize startupLoop envs input
    { tableName := [], firstReq := none, firstReqSet := false, input := input,
      reports := [], inits := [] } = st at s1 s2 s3 s4 ⊢
  obtain ⟨r1, r2⟩ := afterStartup_reports IsEmpty IsFull fuel st
  have hreports : (afterStartup IsEmpty IsFull fuel st).reports =
      ((requests input).take k).enum.map
        (fun p => (p.2, startupError (initializeMetricBatcher (envs p.1)).err)) := by
    rw [r1, s1]; rfl
  refine ⟨hreports, ?_, ?_, ?_, ?_, ?_, ?_⟩
  · rw [hreports]
    intro p hp
    rw [List.mem_map] at hp
    obtain ⟨q, hq, rfl⟩ := hp
    have h1 : q.1 < k := by
      have := List.fst_lt_add_of_mem_enumFrom hq
      rw [List.length_take] at this
      omega
    obtain ⟨e, he⟩ := Option.ne_none_iff_exists'.mp (hfail q.1 h1)
    simp [startupError, he]
  · rw [r2, s2, List.range_eq_range']
  · by_cases hlt : k < (requests input).length
    · obtain ⟨j1, j2, j3, j4⟩ := s4 hlt
      obtain ⟨more, rest, m1, m2⟩ := afterStartup_added IsEmpty IsFull fuel st j1
      rw [m1, j2, List.getElem?_eq_getElem hlt, List.reduceOption_cons_of_some,
        List.drop_eq_getElem_cons hlt, ← j4, ← m2]
      exact ⟨rest, by simp⟩
    · have hkeq : k = (requests input).length := by omega
      have hw := afterStartup_not_set IsEmpty IsFull fuel st (s3 hkeq)
      simp [RunResult.added, hw]
  · intro hlt
    obtain ⟨j1, j2, j3, j4⟩ := s4 hlt
    obtain ⟨more, rest, m1, m2⟩ := afterStartup_added IsEmpty IsFull fuel st j1
    rw [m1, j2]
    rfl
  · intro hkeq
    have hw := afterStartup_not_set IsEmpty IsFull fuel st (s3 hkeq)
    simp [RunResult.added, RunResult.returned, RunResult.toCopiers, hw]
  · intro env res possiblyNew hcache hq hnext hscan
    exact initializeMetricBatcher_empty_name env res possiblyNew hcache hq hnext hscan

/-- Scenario S5 as an instance of C10: of two requests, 1 and 2, the table
resolution for the first gets an empty table name; request 1 is reported the
error and request 2 is the first, and only, request added to a pending
buffer. -/
theorem runMetricBatcher_startup_witness :
    (1 ≤ (requests [Recv.req 1, Recv.empty, Recv.req 2]).length) ∧
    (runMetricBatcher noRequest threeRequests envsS5
        [Recv.req 1, Recv.empty, Recv.req 2] 3).reports =
      [(1, some (.wrap "initializing the insert routine for metric %v has failed with %w"
        (.msg "failed to get the table name for metric %s: empty table name returned")))] ∧
    (runMetricBatcher noRequest threeRequests envsS5
        [Recv.req 1, Recv.empty, Recv.req 2] 3).added.reduceOption = [2] ∧
    ((runMetricBatcher noRequest threeRequests envsS5
        [Recv.req 1, Recv.empty, Recv.req 2] 3).reports =
      ((requests [Recv.req 1, Recv.empty, Recv.req 2]).take 1).enum.map
        (fun p => (p.2, startupError (initializeMetricBatcher (envsS5 p.1)).err)) ∧
    (∀ p ∈ (runMetricBatcher noRequest threeRequests envsS5
        [Recv.req 1, Recv.empty, Recv.req 2] 3).reports, p.2 ≠ none) ∧
    (runMetricBatcher noRequest threeRequests envsS5
        [Recv.req 1, Recv.empty, Recv.req 2] 3).inits =
      (List.range (min (1 + 1) (requests [Recv.req 1, Recv.empty, Recv.req 2]).length)).map
        (fun n => initializeMetricBatcher (envsS5 n)) ∧
    (runMetricBatcher noRequest threeRequests envsS5
        [Recv.req 1, Recv.empty, Recv.req 2] 3).added.reduceOption <+:
      (requests [Recv.req 1, Recv.empty, Recv.req 2]).drop 1 ∧
    (1 < (requests [Recv.req 1, Recv.empty, Recv.req 2]).length →
      (runMetricBatcher noRequest threeRequests envsS5
        [Recv.req 1, Recv.empty, Recv.req 2] 3).added.head? =
        some (requests [Recv.req 1, Recv.empty, Recv.req 2])[1]?) ∧
    (1 = (requests [Recv.req 1, Recv.empty, Recv.req 2]).length →
      (runMetricBatcher noRequest threeRequests envsS5
        [Recv.req 1, Recv.empty, Recv.req 2] 3).worker = none ∧
      (runMetricBatcher noRequest threeRequests envsS5
        [Recv.req 1, Recv.empty, Recv.req 2] 3).returned = true ∧
      (runMetricBatcher noRequest threeRequests envsS5
        [Recv.req 1, Recv.empty, Recv.req 2] 3).toCopiers = [] ∧
      (runMetricBatcher noRequest threeRequests envsS5
        [Recv.req 1, Recv.empty, Recv.req 2] 3).added = []) ∧
    (∀ (env : InitEnv) (res : Rows) (possiblyNew : Bool),
      ¬ (env.cacheGet.2 = none ∧ env.cacheGet.1.TableName ≠ []) →
      env.query = .ok res → res.Next = true → res.Scan = (([], possiblyNew), none) →
      (initializeMetricBatcher env).err ≠ none)) :=
  ⟨by decide, by decide, by decide,
    runMetricBatcher_startup noRequest threeRequests envsS5
      [Recv.req 1, Recv.empty, Recv.req 2] 3 1 (by decide)
      (fun n hn => by
        have hn0 : n = 0 := by omega
        subst hn0
        decide)
      (fun _ => by decide)⟩

/-! ### `Before` and the reference orders -/

/-- Go's `<` on strings, the lexicographic order of the byte lists, is the
byte-wise comparison. -/
theorem lt_iff_bytewiseLess (s : GoString) :
    ∀ u : GoString, s < u ↔ bytewiseLess s u = true := by
  induction s with
  | nil =>
    intro u
    cases u with
    | nil => simp [bytewiseLess]
    | cons b bs =>
      simp only [bytewiseLess, iff_true]
      exact List.Lex.nil
  | cons a as ih =>
    intro u
    cases u with
    | nil =>
      simp only [bytewiseLess, Bool.false_eq_true, iff_false]
      exact List.Lex.not_nil_right _ _
    | cons b bs =>
      rw [bytewiseLess]
      rcases lt_trichotomy a b with h | h | h
      · simp only [h, if_true, iff_true]
        exact List.Lex.rel h
      · subst h
        simp only [lt_irrefl, if_false]
        rw [← ih bs]
        exact List.Lex.cons_iff
      · have h' : ¬ a < b := not_lt_of_gt h
        simp only [h', h, if_false, if_true, Bool.false_eq_true, iff_false]
        intro hlex
        cases hlex with
        | cons _ => exact lt_irrefl _ h
        | rel hr => exact h' hr

/-- C14. `Before` is the lexicographic reference order of each variant: for two
operations, the order of `(serviceName, spanName, spanKind)` under byte-wise
string comparison; for two instrumentation libraries, the order of
`(name, version, schemaURLID.Status, schemaURLID.Int)`; for two schema URLs,
the byte-wise order of the strings. -/
theorem Before_iff_lexicographic :
    (∀ a b : operation, queable.Before (.operation a) (.operation b) = true ↔ a.lexLess b) ∧
    (∀ a b : instrumentationLibrary,
      queable.Before (.instrumentationLibrary a) (.instrumentationLibrary b) = true ↔
        a.lexLess b) ∧
    (∀ s u : GoString,
      queable.Before (.schemaURL s) (.schemaURL u) = true ↔ bytewiseLess s u = true) := by
  refine ⟨?_, ?_, ?_⟩
  · intro a b
    rw [operation_Before_iff]
    simp only [operation.key, Prod.Lex.lt_iff, operation.lexLess, lt_iff_bytewiseLess]
  · intro a b
    rw [instrumentationLibrary_Before_iff]
    simp only [instrumentationLibrary.key, Prod.Lex.lt_iff, instrumentationLibrary.lexLess,
      lt_iff_bytewiseLess]
  · intro s u
    rw [schemaURL_Before_iff, lt_iff_bytewiseLess]

/-! ### `initializeMetricBatcher` and the signal channel -/

/-- C15. For every call of `initializeMetricBatcher`. When the table name is not
found in the metric cache and `metricTableName` resolves it through the store
without error, the call returns that (non-empty) name and no error, and: with
`possiblyNew` true and room in the buffer of the signal channel, exactly one
signal is added; with `possiblyNew` true and the channel full, the channel is
left as it is (the send is dropped, the call returns all the same); with
`possiblyNew` false nothing is sent. When the table name is found non-empty in
the metric cache, or the call returns an error, nothing is sent either. -/
theorem initializeMetricBatcher_signal (env : InitEnv) :
    (¬ (env.cacheGet.2 = none ∧ env.cacheGet.1.TableName ≠ []) →
      (metricTableName env.query).2.2 = none →
        (initializeMetricBatcher env).tableName = (metricTableName env.query).1 ∧
        (initializeMetricBatcher env).tableName ≠ [] ∧
        (initializeMetricBatcher env).err = none ∧
        ((metricTableName env.query).2.1 = true →
          env.signal.buffered < env.signal.capacity →
          (initializeMetricBatcher env).signal =
            { buffered := env.signal.buffered + 1, capacity := env.signal.capacity }) ∧
        ((metricTableName env.query).2.1 = true →
          ¬ env.signal.buffered < env.signal.capacity →
          (initializeMetricBatcher env).signal = env.signal) ∧
        ((metricTableName env.query).2.1 = false →
          (initializeMetricBatcher env).signal = env.signal)) ∧
    ((env.cacheGet.2 = none ∧ env.cacheGet.1.TableName ≠ []) →
      (initializeMetricBatcher env).signal = env.signal ∧
      (initializeMetricBatcher env).tableName = env.cacheGet.1.TableName ∧
      (initializeMetricBatcher env).err = none) ∧
    ((initializeMetricBatcher env).err ≠ none →
      (initializeMetricBatcher env).signal = env.signal) := by
  refine ⟨?_, ?_, ?_⟩
  · intro hc herr
    have hne := metricTableName_ok_ne_empty env.query herr
    have hcond : ¬ ((metricTableName env.query).2.2 ≠ none ∨
        (metricTableName env.query).1 = []) := by
      rintro (h | h)
      · exact h herr
      · exact hne h
    unfold initializeMetricBatcher
    rw [if_neg hc]
    simp only [hcond, if_false]
    refine ⟨trivial, hne, herr, ?_, ?_, ?_⟩
    · intro hp hroom
      simp [hp, SignalChan.trySend, hroom]
    · intro hp hroom
      simp [hp, SignalChan.trySend, hroom]
    · intro hp
      simp [hp]
  · intro hc
    unfold initializeMetricBatcher
    rw [if_pos hc]
    exact ⟨rfl, rfl, rfl⟩
  · intro herr
    unfold initializeMetricBatcher at herr ⊢
    by_cases hc : env.cacheGet.2 = none ∧ env.cacheGet.1.TableName ≠ []
    · rw [if_pos hc]
    · rw [if_neg hc] at herr ⊢
      by_cases hcond : (metricTableName env.query).2.2 ≠ none ∨
          (metricTableName env.query).1 = []
      · simp only [hcond, if_true]
      · simp only [hcond, if_false] at herr
        exact absurd (not_not.mp (fun h => hcond (Or.inl h))) herr

/-! ### The replay driver -/

theorem toUint64_of_nonneg {x : ℤ} (h0 : 0 ≤ x) (h1 : x < 2 ^ 64) : toUint64 x = x.toNat := by
  unfold toUint64
  rw [Int.emod_eq_of_lt h0 h1]

theorem getSeriesID_eq (conf : BenchConfig) (rawSeriesID i : Nat)
    (hK : 1 ≤ conf.SeriesMultiplier) (hKmax : conf.SeriesMultiplier < 2 ^ 63)
    (hi : i < conf.SeriesMultiplier.toNat) :
    getSeriesID conf rawSeriesID i =
      (rawSeriesID * conf.SeriesMultiplier.toNat + i) % 2 ^ 64 := by
  have h1 : toUint64 conf.SeriesMultiplier = conf.SeriesMultiplier.toNat :=
    toUint64_of_nonneg (by omega) (by omega)
  have h2 : toUint64 (i : ℤ) = i := by
    rw [toUint64_of_nonneg (by omega) (by omega)]
    exact Int.toNat_natCast i
  unfold getSeriesID
  rw [h1, h2, Nat.mod_add_mod]

theorem length_flatMap_singletons {α β : Type} (f : β → α) (l : List β) :
    ((l.map (fun i => [f i])).flatMap id).length = l.length := by
  induction l with
  | nil => rfl
  | cons x xs ih =>
    rw [List.map_cons, List.flatMap_cons, List.length_append, ih]
    simp [Nat.add_comm]

/-- The data timestamp that `visitSample` stamps on the samples of a visited
sample with raw timestamp `rawTs`: `dataTimeStartTs + timestampDelta`, in
`int64` arithmetic. -/
theorem visitSample_appended {Val : Type} (conf : BenchConfig) (scale : ℤ → ℤ)
    (firstTs dataTimeStartTs : ℤ) (st : Simulation Val) (rawTs : ℤ) (val : Val)
    (rawSeriesID : Nat)
    (hK : 1 ≤ conf.SeriesMultiplier) (hKmax : conf.SeriesMultiplier < 2 ^ 63) :
    (visitSample conf scale firstTs dataTimeStartTs st rawTs val rawSeriesID).appended =
      st.appended ++ (List.range conf.SeriesMultiplier.toNat).map
        (fun i => [{ Ref := (rawSeriesID * conf.SeriesMultiplier.toNat + i) % 2 ^ 64,
                     T := wrapInt64 (dataTimeStartTs + scale (wrapInt64 (rawTs - firstTs))),
                     V := val }]) := by
  simp only [visitSample]
  congr 1
  apply List.map_congr_left
  intro i hi
  rw [getSeriesID_eq conf rawSeriesID i hK hKmax (List.mem_range.mp hi)]

theorem visitSample_count {Val : Type} (conf : BenchConfig) (scale : ℤ → ℤ)
    (firstTs dataTimeStartTs : ℤ) (st : Simulation Val) (rawTs : ℤ) (val : Val)
    (rawSeriesID : Nat) (hK : 1 ≤ conf.SeriesMultiplier) :
    (visitSample conf scale firstTs dataTimeStartTs st rawTs val rawSeriesID).count =
      wrapInt64 (st.count + conf.SeriesMultiplier) := by
  have hcast : ((conf.SeriesMultiplier.toNat : ℕ) : ℤ) = conf.SeriesMultiplier :=
    Int.toNat_of_nonneg (by omega)
  simp only [visitSample, List.length_map, List.length_range, hcast]

theorem wrapInt64_of_range {x : ℤ} (h0 : - 2 ^ 63 ≤ x) (h1 : x < 2 ^ 63) : wrapInt64 x = x := by
  unfold wrapInt64
  rw [Int.emod_eq_of_lt (by omega) (by omega)]
  omega

/-- The visit of a list of samples: the appends of each sample in turn, and,
without overflow, a count that has grown by `K` for each. -/
theorem foldl_visitSample {Val : Type} (conf : BenchConfig) (scale : ℤ → ℤ)
    (firstTs dataTimeStartTs : ℤ)
    (hK : 1 ≤ conf.SeriesMultiplier) (hKmax : conf.SeriesMultiplier < 2 ^ 63)
    (visited : List (ℤ × Val × Nat)) :
    ∀ st : Simulation Val,
      (visited.foldl
        (fun st s => visitSample conf scale firstTs dataTimeStartTs st s.1 s.2.1 s.2.2)
        st).appended =
        st.appended ++ visited.flatMap (fun s =>
          (List.range conf.SeriesMultiplier.toNat).map
            (fun i => [{ Ref := (s.2.2 * conf.SeriesMultiplier.toNat + i) % 2 ^ 64,
                         T := wrapInt64 (dataTimeStartTs + scale (wrapInt64 (s.1 - firstTs))),
                         V := s.2.1 }])) ∧
      (0 ≤ st.count → st.count + conf.SeriesMultiplier * visited.length < 2 ^ 63 →
        (visited.foldl
          (fun st s => visitSample conf scale firstTs dataTimeStartTs st s.1 s.2.1 s.2.2)
          st).count = st.count + conf.SeriesMultiplier * visited.length) := by
  induction visited with
  | nil => intro st; simp
  | cons s rest ih =>
    intro st
    obtain ⟨i1, i2⟩ := ih (visitSample conf scale firstTs dataTimeStartTs st s.1 s.2.1 s.2.2)
    refine ⟨?_, ?_⟩
    · simp only [List.foldl_cons, List.flatMap_cons]
      rw [i1, visitSample_appended conf scale firstTs dataTimeStartTs st s.1 s.2.1 s.2.2 hK
        hKmax, List.append_assoc]
    · intro h0 h1
      have hlen : ((s :: rest).length : ℤ) = (rest.length : ℤ) + 1 := by
        simp
      rw [hlen] at h1 ⊢
      have hpos : 0 ≤ conf.SeriesMultiplier * (rest.length : ℤ) :=
        Int.mul_nonneg (by omega) (Int.natCast_nonneg _)
      have hc : (visitSample conf scale firstTs dataTimeStartTs st s.1 s.2.1 s.2.2).count =
          st.count + conf.SeriesMultiplier := by
        rw [visitSample_count conf scale firstTs dataTimeStartTs st s.1 s.2.1 s.2.2 hK]
        apply wrapInt64_of_range
        · omega
        · rw [Int.mul_add, Int.mul_one] at h1
          omega
      simp only [List.foldl_cons]
      rw [i2 (by rw [hc]; omega) (by rw [hc, Int.mul_add, Int.mul_one] at *; omega), hc,
        Int.mul_add, Int.mul_one]
      omega

/-- C13. In the replay driver, for every visited sample `(rawTs, val,
rawSeriesID)` and series multiplier `K >= 1`: exactly `K` samples are appended
to the WAL simulator, one `Append` each; the one for index `i` in `0..K-1` has
`Ref = (rawSeriesID * K + i) mod 2^64`, and all have the value `val` and the
same data timestamp, `dataTimeStartTs + timestampDelta` with `timestampDelta`
the scaled `rawTs - firstTs` (`int64` arithmetic); the sample count becomes
the `int` sum of the count and `K`, which is `count + K` when that does not
overflow; absent `uint64` overflow, the refs of two different raw series ids
never coincide; and `RunFullSimulation`, run on a heap, appends these samples
for each visited sample in turn, the data time starting at the wall clock or
at the first block timestamp as configured, and returns `K` times the number
of visited samples as its count when that does not overflow. -/
theorem visitSample_appends_K {Val : Type} (conf : BenchConfig) (scale : ℤ → ℤ)
    (firstTs dataTimeStartTs : ℤ) (st : Simulation Val) (rawTs : ℤ) (val : Val)
    (rawSeriesID : Nat)
    (hK : 1 ≤ conf.SeriesMultiplier) (hKmax : conf.SeriesMultiplier < 2 ^ 63) :
    (visitSample conf scale firstTs dataTimeStartTs st rawTs val rawSeriesID).appended =
      st.appended ++ (List.range conf.SeriesMultiplier.toNat).map
        (fun i => [{ Ref := (rawSeriesID * conf.SeriesMultiplier.toNat + i) % 2 ^ 64,
                     T := wrapInt64 (dataTimeStartTs + scale (wrapInt64 (rawTs - firstTs))),
                     V := val }]) ∧
    (visitSample conf scale firstTs dataTimeStartTs st rawTs val rawSeriesID).appended.length =
      st.appended.length + conf.SeriesMultiplier.toNat ∧
    ((visitSample conf scale firstTs dataTimeStartTs st rawTs val
        rawSeriesID).appended.flatMap id).length =
      (st.appended.flatMap id).length + conf.SeriesMultiplier.toNat ∧
    (visitSample conf scale firstTs dataTimeStartTs st rawTs val rawSeriesID).count =
      wrapInt64 (st.count + conf.SeriesMultiplier) ∧
    (- 2 ^ 63 ≤ st.count → st.count + conf.SeriesMultiplier < 2 ^ 63 →
      (visitSample conf scale firstTs dataTimeStartTs st rawTs val rawSeriesID).count =
        st.count + conf.SeriesMultiplier) ∧
    (∀ s1 s2 i j : Nat, s1 ≠ s2 →
      i < conf.SeriesMultiplier.toNat → j < conf.SeriesMultiplier.toNat →
      s1 * conf.SeriesMultiplier.toNat + i < 2 ^ 64 →
      s2 * conf.SeriesMultiplier.toNat + j < 2 ^ 64 →
      getSeriesID conf s1 i ≠ getSeriesID conf s2 j) ∧
    (∀ (sth : SeriesTimeHeap Val) (startTs : ℤ) (warnings : List GoError)
        (ssErr : Option GoError),
      (RunFullSimulation conf scale (.ok sth) startTs warnings ssErr).2.2.appended =
        sth.visited.flatMap (fun s =>
          (List.range conf.SeriesMultiplier.toNat).map
            (fun i => [{ Ref := (s.2.2 * conf.SeriesMultiplier.toNat + i) % 2 ^ 64,
                         T := wrapInt64
                           ((if conf.UseWallClockForDataTime then startTs else sth.firstTs) +
                             scale (wrapInt64 (s.1 - sth.firstTs))),
                         V := s.2.1 }])) ∧
      (conf.SeriesMultiplier * sth.visited.length < 2 ^ 63 →
        (RunFullSimulation conf scale (.ok sth) startTs warnings ssErr).1 =
          conf.SeriesMultiplier * sth.visited.length)) := by
  have happ := visitSample_appended conf scale firstTs dataTimeStartTs st rawTs val
    rawSeriesID hK hKmax
  have hcount := visitSample_count conf scale firstTs dataTimeStartTs st rawTs val
    rawSeriesID hK
  refine ⟨happ, ?_, ?_, hcount, ?_, ?_, ?_⟩
  · rw [happ]; simp
  · rw [happ]
    simp only [List.flatMap_append, List.length_append]
    rw [length_flatMap_singletons, List.length_range]
  · intro h1 h2
    rw [hcount]
    exact wrapInt64_of_range (by omega) h2
  · intro s1 s2 i j hne hi hj h1 h2
    rw [getSeriesID_eq conf s1 i hK hKmax hi, getSeriesID_eq conf s2 j hK hKmax hj,
      Nat.mod_eq_of_lt h1, Nat.mod_eq_of_lt h2]
    intro heq
    apply hne
    have hpos : 0 < conf.SeriesMultiplier.toNat := by omega
    have e1 : (s1 * conf.SeriesMultiplier.toNat + i) / conf.SeriesMultiplier.toNat = s1 := by
      rw [Nat.mul_comm, Nat.mul_add_div hpos, Nat.div_eq_of_lt hi, Nat.add_zero]
    have e2 : (s2 * conf.SeriesMultiplier.toNat + j) / conf.SeriesMultiplier.toNat = s2 := by
      rw [Nat.mul_comm, Nat.mul_add_div hpos, Nat.div_eq_of_lt hj, Nat.add_zero]
    rw [← e1, ← e2, heq]
  · intro sth startTs warnings ssErr
    obtain ⟨f1, f2⟩ := foldl_visitSample conf scale sth.firstTs
      (if conf.UseWallClockForDataTime then startTs else sth.firstTs) hK hKmax sth.visited
      { count := 0, appended := [], highestTs := [], samplesIn := [] }
    refine ⟨?_, ?_⟩
    · simp only [RunFullSimulation]
      rw [f1]
      simp
    · intro hlt
      simp only [RunFullSimulation]
      rw [f2 (le_refl _) (by simpa using hlt)]
      simp

/-- An instance of C13: with series multiplier 3, first block timestamp 400,
data time starting at 5000 and a rate multiplier of 2, the sample `(1000, 5)` of
raw series 7 is appended three times, with the refs 21, 22 and 23 and the data
timestamp `5000 + (1000 - 400) / 2 = 5300`, and the count goes from 0 to 3; a
run over two samples returns the count 6. -/
theorem visitSample_appends_K_witness :
    (1 ≤ confK3.SeriesMultiplier) ∧ (confK3.SeriesMultiplier < 2 ^ 63) ∧
    (visitSample confK3 halfScale 400 5000 simulationStart 1000 5 7).appended =
      [[{ Ref := 21, T := 5300, V := 5 }], [{ Ref := 22, T := 5300, V := 5 }],
       [{ Ref := 23, T := 5300, V := 5 }]] ∧
    (visitSample confK3 halfScale 400 5000 simulationStart 1000 5 7).count = 3 ∧
    (RunFullSimulation confK3 halfScale (.ok heapTwoSamples) 9999 [] none).1 = 6 ∧
    (RunFullSimulation confK3 halfScale (.ok heapTwoSamples) 9999 [] none).2.2.appended =
      [[{ Ref := 21, T := 400, V := 5 }], [{ Ref := 22, T := 400, V := 5 }],
       [{ Ref := 23, T := 400, V := 5 }], [{ Ref := 24, T := 700, V := 6 }],
       [{ Ref := 25, T := 700, V := 6 }], [{ Ref := 26, T := 700, V := 6 }]] ∧
    ((visitSample confK3 halfScale 400 5000 simulationStart 1000 5 7).appended =
      simulationStart.appended ++ (List.range confK3.SeriesMultiplier.toNat).map
        (fun i => [{ Ref := (7 * confK3.SeriesMultiplier.toNat + i) % 2 ^ 64,
                     T := wrapInt64 (5000 + halfScale (wrapInt64 (1000 - 400))),
                     V := 5 }]) ∧
    (visitSample confK3 halfScale 400 5000 simulationStart 1000 5 7).appended.length =
      simulationStart.appended.length + confK3.SeriesMultiplier.toNat ∧
    ((visitSample confK3 halfScale 400 5000 simulationStart 1000 5 7).appended.flatMap
        id).length =
      (simulationStart.appended.flatMap id).length + confK3.SeriesMultiplier.toNat ∧
    (visitSample confK3 halfScale 400 5000 simulationStart 1000 5 7).count =
      wrapInt64 (simulationStart.count + confK3.SeriesMultiplier) ∧
    (- 2 ^ 63 ≤ simulationStart.count →
      simulationStart.count + confK3.SeriesMultiplier < 2 ^ 63 →
      (visitSample confK3 halfScale 400 5000 simulationStart 1000 5 7).count =
        simulationStart.count + confK3.SeriesMultiplier) ∧
    (∀ s1 s2 i j : Nat, s1 ≠ s2 →
      i < confK3.SeriesMultiplier.toNat → j < confK3.SeriesMultiplier.toNat →
      s1 * confK3.SeriesMultiplier.toNat + i < 2 ^ 64 →
      s2 * confK3.SeriesMultiplier.toNat + j < 2 ^ 64 →
      getSeriesID confK3 s1 i ≠ getSeriesID confK3 s2 j) ∧
    (∀ (sth : SeriesTimeHeap ℤ) (startTs : ℤ) (warnings : List GoError)
        (ssErr : Option GoError),
      (RunFullSimulation confK3 halfScale (.ok sth) startTs warnings ssErr).2.2.appended =
        sth.visited.flatMap (fun s =>
          (List.range confK3.SeriesMultiplier.toNat).map
            (fun i => [{ Ref := (s.2.2 * confK3.SeriesMultiplier.toNat + i) % 2 ^ 64,
                         T := wrapInt64
                           ((if confK3.UseWallClockForDataTime then startTs
                              else sth.firstTs) +
                             halfScale (wrapInt64 (s.1 - sth.firstTs))),
                         V := s.2.1 }])) ∧
      (confK3.SeriesMultiplier * sth.visited.length < 2 ^ 63 →
        (RunFullSimulation confK3 halfScale (.ok sth) startTs warnings ssErr).1 =
          confK3.SeriesMultiplier * sth.visited.length))) :=
  ⟨by decide, by decide, by decide, by decide, by decide, by decide,
    visitSample_appends_K confK3 halfScale 400 5000 simulationStart 1000 5 7
      (by decide) (by decide)⟩

/-! ### The metric batcher: the hot-receive loop -/

theorem run_succ_last {Req : Type} (IsEmpty IsFull : pendingBuffer Req → Bool) (n : Nat) :
    ∀ w : Worker Req,
      Worker.run IsEmpty IsFull (n + 1) w =
        (Worker.run IsEmpty IsFull n w).step IsEmpty IsFull := by
  induction n with
  | zero => intro w; rfl
  | succ k ih =>
    intro w
    show Worker.run IsEmpty IsFull (k + 1) (w.step IsEmpty IsFull) = _
    rw [ih]
    rfl

theorem step_hot_received {Req : Type} (IsEmpty IsFull : pendingBuffer Req → Bool)
    (r : Req) (input : List (Recv Req)) (pre : List (Option Req)) (tn : GoString)
    (tc : List (copyRequest Req)) (hnf : IsFull { reqs := pre ++ [some r] } = false) :
    Worker.step IsEmpty IsFull
      { h := { input := Recv.req r :: input, pending := { reqs := pre }, metricTableName := tn,
               toCopiers := tc }, pc := .hotReceive } =
      { h := { input := input, pending := { reqs := pre ++ [some r] }, metricTableName := tn,
               toCopiers := tc }, pc := .hotReceive } := by
  simp [Worker.step, metricBatcher.nonblockingHandleReq, recvNonblocking,
    metricBatcher.handleReq, pendingBuffer.addReq, hnf]

theorem step_hot_default {Req : Type} (IsEmpty IsFull : pendingBuffer Req → Bool)
    (input : List (Recv Req)) (pre : List (Option Req)) (tn : GoString)
    (tc : List (copyRequest Req)) (hne : IsEmpty { reqs := pre } = false) :
    Worker.step IsEmpty IsFull
      { h := { input := Recv.empty :: input, pending := { reqs := pre }, metricTableName := tn,
               toCopiers := tc }, pc := .hotReceive } =
      { h := { input := input, pending := NewPendingBuffer, metricTableName := tn,
               toCopiers := tc ++ [{ buffer := { reqs := pre }, tableName := tn }] },
        pc := .loop } := by
  simp [Worker.step, metricBatcher.nonblockingHandleReq, recvNonblocking,
    metricBatcher.flush, metricBatcher.flushPending, hne]

/-- The hot-receive loop with the requests `rs` waiting and the channel then
empty: nothing is sent while they are received, and then one copy request
with everything added is sent. -/
theorem hot_drain {Req : Type} (IsEmpty IsFull : pendingBuffer Req → Bool)
    (rest : List (Recv Req)) (tn : GoString) (tc : List (copyRequest Req)) (rs : List Req) :
    ∀ pre : List (Option Req),
      (∀ i, i < rs.length → IsFull { reqs := pre ++ (rs.take (i + 1)).map some } = false) →
      IsEmpty { reqs := pre ++ rs.map some } = false →
      (∀ fuel, fuel ≤ rs.length →
        (Worker.run IsEmpty IsFull fuel
          { h := { input := rs.map Recv.req ++ Recv.empty :: rest, pending := { reqs := pre },
                   metricTableName := tn, toCopiers := tc }, pc := .hotReceive }).h.toCopiers
          = tc) ∧
      Worker.run IsEmpty IsFull (rs.length + 1)
          { h := { input := rs.map Recv.req ++ Recv.empty :: rest, pending := { reqs := pre },
                   metricTableName := tn, toCopiers := tc }, pc := .hotReceive } =
        { h := { input := rest, pending := NewPendingBuffer, metricTableName := tn,
                 toCopiers := tc ++ [{ buffer := { reqs := pre ++ rs.map some },
                                       tableName := tn }] },
          pc := .loop } := by
  induction rs with
  | nil =>
    intro pre _ hne
    refine ⟨?_, ?_⟩
    · intro fuel hf
      have : fuel = 0 := by simpa using hf
      subst this
      rfl
    · simp only [List.map_nil, List.nil_append, List.length_nil, Nat.zero_add, Worker.run,
        List.append_nil] at hne ⊢
      exact step_hot_default IsEmpty IsFull rest pre tn tc hne
  | cons r rs ih =>
    intro pre hnf hne
    have h0 : IsFull { reqs := pre ++ [some r] } = false := by
      simpa using hnf 0 (by simp)
    have hstep := step_hot_received IsEmpty IsFull r (rs.map Recv.req ++ Recv.empty :: rest)
      pre tn tc h0
    obtain ⟨i1, i2⟩ := ih (pre ++ [some r])
      (by
        intro i hi
        have := hnf (i + 1) (by simpa using hi)
        simpa using this)
      (by simpa using hne)
    refine ⟨?_, ?_⟩
    · intro fuel hf
      cases fuel with
      | zero => rfl
      | succ f =>
        show (Worker.run IsEmpty IsFull f
          (Worker.step IsEmpty IsFull
            { h := { input := Recv.req r :: (rs.map Recv.req ++ Recv.empty :: rest),
                     pending := { reqs := pre }, metricTableName := tn, toCopiers := tc },
              pc := .hotReceive })).h.toCopiers = tc
        rw [hstep]
        exact i1 f (by simpa using hf)
    · show Worker.run IsEmpty IsFull (rs.length + 1)
        (Worker.step IsEmpty IsFull
          { h := { input := Recv.req r :: (rs.map Recv.req ++ Recv.empty :: rest),
                   pending := { reqs := pre }, metricTableName := tn, toCopiers := tc },
            pc := .hotReceive }) = _
      rw [hstep, i2]
      simp

/-- C11. Let `n >= 1` requests `r :: rs` be on the input channel before the
worker finds it empty, let table resolution succeed on the first, and let no
buffer holding the first `i` of them (`1 <= i <= n`) be full, each being
non-empty. Then no copy request is sent during the first `n` steps of the
steady loop, and after the next step exactly one has been sent: its buffer
holds the `n` requests in arrival order, it carries the resolved table name,
and the worker, back at the head of its loop, holds a new pending buffer. -/
theorem hotReceive_one_copy_request {Req : Type} (IsEmpty IsFull : pendingBuffer Req → Bool)
    (envs : Nat → InitEnv) (r : Req) (rs : List Req) (rest : List (Recv Req))
    (hinit : (initializeMetricBatcher (envs 0)).err = none)
    (hne : ∀ i, i < (r :: rs).length →
      IsEmpty (bufferOf ((r :: rs).take (i + 1))) = false)
    (hnf : ∀ i, i < (r :: rs).length →
      IsFull (bufferOf ((r :: rs).take (i + 1))) = false) :
    (∀ fuel, fuel ≤ (r :: rs).length →
      (runMetricBatcher IsEmpty IsFull envs
        ((r :: rs).map Recv.req ++ Recv.empty :: rest) fuel).toCopiers = []) ∧
    (runMetricBatcher IsEmpty IsFull envs
        ((r :: rs).map Recv.req ++ Recv.empty :: rest) ((r :: rs).length + 1)).worker =
      some
        { h := { input := rest
                 pending := NewPendingBuffer
                 metricTableName := (initializeMetricBatcher (envs 0)).tableName
                 toCopiers := [{ buffer := bufferOf (r :: rs),
                                 tableName := (initializeMetricBatcher (envs 0)).tableName }] }
          pc := .loop } := by
  have hstart : startupLoop envs ((r :: rs).map Recv.req ++ Recv.empty :: rest)
      { tableName := [], firstReq := none, firstReqSet := false,
        input := (r :: rs).map Recv.req ++ Recv.empty :: rest, reports := [], inits := [] } =
      { tableName := (initializeMetricBatcher (envs 0)).tableName, firstReq := some r,
        firstReqSet := true, input := rs.map Recv.req ++ Recv.empty :: rest, reports := [],
        inits := [initializeMetricBatcher (envs 0)] } := by
    simp [startupLoop, hinit]
  have hf0 : IsFull { reqs := [some r] } = false := by
    simpa [bufferOf] using hnf 0 (by simp)
  have he0 : IsEmpty { reqs := [some r] } = false := by
    simpa [bufferOf] using hne 0 (by simp)
  have hrun : ∀ fuel, runMetricBatcher IsEmpty IsFull envs
      ((r :: rs).map Recv.req ++ Recv.empty :: rest) fuel =
      { reports := [], inits := [initializeMetricBatcher (envs 0)],
        worker := some (Worker.run IsEmpty IsFull fuel
          { h := { input := rs.map Recv.req ++ Recv.empty :: rest,
                   pending := { reqs := [some r] },
                   metricTableName := (initializeMetricBatcher (envs 0)).tableName,
                   toCopiers := [] }, pc := .loop }) } := by
    intro fuel
    unfold runMetricBatcher
    rw [hstart]
    simp [afterStartup, metricBatcher.handleReq, pendingBuffer.addReq, NewPendingBuffer, hf0]
  have hloop : Worker.step IsEmpty IsFull
      { h := { input := rs.map Recv.req ++ Recv.empty :: rest,
               pending := { reqs := [some r] },
               metricTableName := (initializeMetricBatcher (envs 0)).tableName,
               toCopiers := [] }, pc := .loop } =
      { h := { input := rs.map Recv.req ++ Recv.empty :: rest,
               pending := { reqs := [some r] },
               metricTableName := (initializeMetricBatcher (envs 0)).tableName,
               toCopiers := [] }, pc := .hotReceive } := by
    simp [Worker.step, he0]
  obtain ⟨d1, d2⟩ := hot_drain IsEmpty IsFull rest
    (initializeMetricBatcher (envs 0)).tableName [] rs [some r]
    (by
      intro i hi
      have := hnf (i + 1) (by simpa using hi)
      simpa [bufferOf] using this)
    (by
      have := hne rs.length (by simp)
      simpa [bufferOf] using this)
  refine ⟨?_, ?_⟩
  · intro fuel hfuel
    rw [hrun]
    simp only [RunResult.toCopiers]
    cases fuel with
    | zero => rfl
    | succ f =>
      show (Worker.run IsEmpty IsFull f (Worker.step IsEmpty IsFull _)).h.toCopiers = []
      rw [hloop]
      exact d1 f (by simpa using hfuel)
  · rw [hrun]
    show some (Worker.run IsEmpty IsFull (rs.length + 1) (Worker.step IsEmpty IsFull _)) = _
    rw [hloop, d2]
    simp [bufferOf]

/-- Scenario S2 as an instance of C11: the requests with samples
`[(1000, 1), (2000, 2)]` and `[(3000, 3)]` give one copy request, with 3
samples. -/
theorem hotReceive_one_copy_request_witness :
    (initializeMetricBatcher (envsOk 0)).err = none ∧
    (runMetricBatcher holdsNothing (holdsSamples 1000) envsOk
      [Recv.req reqS2a, Recv.req reqS2b, Recv.empty] 3).toCopiers.map
        (fun c => ((samplesOf c.buffer).length, c.buffer.reqs, c.tableName)) =
      [(3, [some reqS2a, some reqS2b], ascii "tbl")] ∧
    ((∀ fuel, fuel ≤ (reqS2a :: [reqS2b]).length →
      (runMetricBatcher holdsNothing (holdsSamples 1000) envsOk
        ((reqS2a :: [reqS2b]).map Recv.req ++ Recv.empty :: []) fuel).toCopiers = []) ∧
    (runMetricBatcher holdsNothing (holdsSamples 1000) envsOk
        ((reqS2a :: [reqS2b]).map Recv.req ++ Recv.empty :: [])
        ((reqS2a :: [reqS2b]).length + 1)).worker =
      some
        { h := { input := []
                 pending := NewPendingBuffer
                 metricTableName := (initializeMetricBatcher (envsOk 0)).tableName
                 toCopiers := [{ buffer := bufferOf (reqS2a :: [reqS2b]),
                                 tableName := (initializeMetricBatcher (envsOk 0)).tableName }] }
          pc := .loop }) :=
  ⟨by decide, by decide,
    hotReceive_one_copy_request holdsNothing (holdsSamples 1000) envsOk reqS2a [reqS2b] []
      (by decide) (by decide) (by decide)⟩

/-! ### The metric batcher: no empty buffer is sent -/

theorem noEmptySent_flushPending {Req : Type} (IsEmpty : pendingBuffer Req → Bool)
    (hnew : IsEmpty NewPendingBuffer = true) (h : metricBatcher Req)
    (hinv : h.NoEmptySent IsEmpty) (hpe : IsEmpty h.pending = false) :
    h.flushPending.NoEmptySent IsEmpty := by
  obtain ⟨h1, h2⟩ := hinv
  refine ⟨?_, Or.inl rfl⟩
  intro cr hcr
  simp only [metricBatcher.flushPending, List.mem_append, List.mem_singleton] at hcr
  rcases hcr with hcr | rfl
  · exact h1 cr hcr
  · refine ⟨hpe, ?_⟩
    rcases h2 with h2 | ⟨p, req, h2⟩
    · rw [h2, hnew] at hpe
      cases hpe
    · show h.pending.reqs ≠ []
      rw [h2]
      simp [pendingBuffer.addReq]

theorem noEmptySent_flush {Req : Type} (IsEmpty : pendingBuffer Req → Bool)
    (hnew : IsEmpty NewPendingBuffer = true) (h : metricBatcher Req)
    (hinv : h.NoEmptySent IsEmpty) : (h.flush IsEmpty).NoEmptySent IsEmpty := by
  unfold metricBatcher.flush
  by_cases he : IsEmpty h.pending = true
  · rw [if_pos he]; exact hinv
  · rw [if_neg he]
    exact noEmptySent_flushPending IsEmpty hnew h hinv (by simpa using he)

theorem noEmptySent_handleReq {Req : Type} (IsEmpty IsFull : pendingBuffer Req → Bool)
    (hadd : ∀ p req, IsEmpty (pendingBuffer.addReq p req) = false)
    (hnew : IsEmpty NewPendingBuffer = true) (h : metricBatcher Req) (req : Option Req)
    (hinv : h.NoEmptySent IsEmpty) : (h.handleReq IsFull req).1.NoEmptySent IsEmpty := by
  have key : h.handleReq IsFull req =
      if IsFull (h.pending.addReq req) = true then
        (({ h with pending := h.pending.addReq req } : metricBatcher Req).flushPending, true)
      else ({ h with pending := h.pending.addReq req }, false) := rfl
  have hinv' : ({ h with pending := h.pending.addReq req } : metricBatcher Req).NoEmptySent
      IsEmpty := ⟨hinv.1, Or.inr ⟨h.pending, req, rfl⟩⟩
  rw [key]
  by_cases hf : IsFull (h.pending.addReq req) = true
  · rw [if_pos hf]
    exact noEmptySent_flushPending IsEmpty hnew _ hinv' (hadd _ _)
  · rw [if_neg hf]
    exact hinv'

theorem noEmptySent_input {Req : Type} (IsEmpty : pendingBuffer Req → Bool)
    (h : metricBatcher Req) (input : List (Recv Req)) (hinv : h.NoEmptySent IsEmpty) :
    ({ h with input := input } : metricBatcher Req).NoEmptySent IsEmpty := hinv

theorem noEmptySent_step {Req : Type} (IsEmpty IsFull : pendingBuffer Req → Bool)
    (hadd : ∀ p req, IsEmpty (pendingBuffer.addReq p req) = false)
    (hnew : IsEmpty NewPendingBuffer = true) (w : Worker Req)
    (hinv : w.h.NoEmptySent IsEmpty) : (w.step IsEmpty IsFull).h.NoEmptySent IsEmpty := by
  have hblock : (w.h.blockingHandleReq IsFull).1.NoEmptySent IsEmpty := by
    have key : w.h.blockingHandleReq IsFull =
        if (!(recvBlocking w.h.input).2.1) = true then
          ({ w.h with input := (recvBlocking w.h.input).2.2 }, false)
        else ((metricBatcher.handleReq IsFull { w.h with input := (recvBlocking w.h.input).2.2 }
          (recvBlocking w.h.input).1).1, true) := rfl
    rw [key]
    split
    · exact hinv
    · exact noEmptySent_handleReq IsEmpty IsFull hadd hnew _ _ hinv
  have hnonblock : (w.h.nonblockingHandleReq IsFull).1.NoEmptySent IsEmpty := by
    unfold metricBatcher.nonblockingHandleReq
    cases recvNonblocking w.h.input with
    | received req rest => exact noEmptySent_handleReq IsEmpty IsFull hadd hnew _ _ hinv
    | default rest => exact hinv
  unfold Worker.step
  cases hpc : w.pc with
  | returned => exact hinv
  | loop =>
    by_cases he : IsEmpty w.h.pending = true
    · simp only [he, if_true]
      cases hres : w.h.blockingHandleReq IsFull with
      | mk h' alive =>
        rw [hres] at hblock
        cases alive <;> exact hblock
    · simp only [he]
      exact hinv
  | hotReceive =>
    cases hres : w.h.nonblockingHandleReq IsFull with
    | mk h' got =>
      rw [hres] at hnonblock
      cases got
      · exact noEmptySent_flush IsEmpty hnew h' hnonblock
      · by_cases hf : IsFull h'.pending = true
        · simp only [hf, if_true]
          exact noEmptySent_flush IsEmpty hnew h' hnonblock
        · simp only [hf]
          exact hnonblock

theorem noEmptySent_run {Req : Type} (IsEmpty IsFull : pendingBuffer Req → Bool)
    (hadd : ∀ p req, IsEmpty (pendingBuffer.addReq p req) = false)
    (hnew : IsEmpty NewPendingBuffer = true) (fuel : Nat) :
    ∀ w : Worker Req, w.h.NoEmptySent IsEmpty →
      (Worker.run IsEmpty IsFull fuel w).h.NoEmptySent IsEmpty := by
  induction fuel with
  | zero => intro w h; exact h
  | succ n ih =>
    intro w h
    exact ih _ (noEmptySent_step IsEmpty IsFull hadd hnew w h)

theorem nilOnlyClosed_flush {Req : Type} (IsEmpty : pendingBuffer Req → Bool)
    (h : metricBatcher Req) (hinv : h.NilOnlyClosed) : (h.flush IsEmpty).NilOnlyClosed := by
  unfold metricBatcher.NilOnlyClosed
  rw [(added_flush IsEmpty h).1, (added_flush IsEmpty h).2]
  exact hinv

theorem nilOnlyClosed_handleReq_some {Req : Type} (IsFull : pendingBuffer Req → Bool)
    (h : metricBatcher Req) (r : Req) (hnil : none ∉ h.added) :
    (h.handleReq IsFull (some r)).1.NilOnlyClosed := by
  unfold metricBatcher.NilOnlyClosed
  rw [(added_handleReq IsFull h (some r)).1]
  intro hmem
  simp only [List.mem_append, List.mem_singleton] at hmem
  rcases hmem with hmem | hmem
  · exact absurd hmem hnil
  · cases hmem

theorem nilOnlyClosed_handleReq_closed {Req : Type} (IsFull : pendingBuffer Req → Bool)
    (h : metricBatcher Req) (req : Option Req) (hin : h.input = []) :
    (h.handleReq IsFull req).1.NilOnlyClosed := by
  unfold metricBatcher.NilOnlyClosed
  rw [(added_handleReq IsFull h req).2]
  exact fun _ => hin

theorem nilOnlyClosed_blockingHandleReq {Req : Type} (IsFull : pendingBuffer Req → Bool)
    (h : metricBatcher Req) (hinv : h.NilOnlyClosed) :
    (h.blockingHandleReq IsFull).1.NilOnlyClosed := by
  have key : h.blockingHandleReq IsFull =
      if (!(recvBlocking h.input).2.1) = true then
        ({ h with input := (recvBlocking h.input).2.2 }, false)
      else ((metricBatcher.handleReq IsFull { h with input := (recvBlocking h.input).2.2 }
        (recvBlocking h.input).1).1, true) := rfl
  rw [key]
  obtain ⟨h1, h2⟩ := recvBlocking_requests h.input
  by_cases hok : (recvBlocking h.input).2.1 = true
  · rw [if_neg (by simp [hok])]
    obtain ⟨r, hr, hreq⟩ := h1 hok
    rw [hr]
    apply nilOnlyClosed_handleReq_some
    intro hmem
    have hin := hinv hmem
    rw [hin] at hreq
    cases hreq
  · have hok' : (recvBlocking h.input).2.1 = false := by simpa using hok
    rw [if_pos (by simp [hok'])]
    intro _
    exact (h2 hok').2

theorem nilOnlyClosed_nonblockingHandleReq {Req : Type} (IsFull : pendingBuffer Req → Bool)
    (h : metricBatcher Req) (hinv : h.NilOnlyClosed) :
    (h.nonblockingHandleReq IsFull).1.NilOnlyClosed := by
  unfold metricBatcher.nonblockingHandleReq
  cases hin : h.input with
  | nil =>
    simp only [recvNonblocking]
    exact nilOnlyClosed_handleReq_closed IsFull _ none rfl
  | cons ev rest =>
    have hnil : none ∉ h.added := by
      intro hmem
      have := hinv hmem
      rw [hin] at this
      cases this
    cases ev with
    | empty =>
      simp only [recvNonblocking]
      intro hmem
      exact absurd hmem hnil
    | req r =>
      simp only [recvNonblocking]
      exact nilOnlyClosed_handleReq_some IsFull _ r hnil

theorem nilOnlyClosed_step {Req : Type} (IsEmpty IsFull : pendingBuffer Req → Bool)
    (w : Worker Req) (hinv : w.h.NilOnlyClosed) : (w.step IsEmpty IsFull).h.NilOnlyClosed := by
  have hblock := nilOnlyClosed_blockingHandleReq IsFull w.h hinv
  have hnonblock := nilOnlyClosed_nonblockingHandleReq IsFull w.h hinv
  unfold Worker.step
  cases hpc : w.pc with
  | returned => exact hinv
  | loop =>
    by_cases he : IsEmpty w.h.pending = true
    · simp only [he, if_true]
      cases hres : w.h.blockingHandleReq IsFull with
      | mk h' alive =>
        rw [hres] at hblock
        cases alive <;> exact hblock
    · simp only [he]
      exact hinv
  | hotReceive =>
    cases hres : w.h.nonblockingHandleReq IsFull with
    | mk h' got =>
      rw [hres] at hnonblock
      cases got
      · exact nilOnlyClosed_flush IsEmpty h' hnonblock
      · by_cases hf : IsFull h'.pending = true
        · simp only [hf, if_true]
          exact nilOnlyClosed_flush IsEmpty h' hnonblock
        · simp only [hf]
          exact hnonblock

theorem nilOnlyClosed_run {Req : Type} (IsEmpty IsFull : pendingBuffer Req → Bool)
    (fuel : Nat) :
    ∀ w : Worker Req, w.h.NilOnlyClosed → (Worker.run IsEmpty IsFull fuel w).h.NilOnlyClosed := by
  induction fuel with
  | zero => intro w h; exact h
  | succ n ih =>
    intro w h
    exact ih _ (nilOnlyClosed_step IsEmpty IsFull w h)

theorem startupLoop_firstReq {Req : Type} (envs : Nat → InitEnv) (input : List (Recv Req)) :
    ∀ st : Startup Req, st.firstReqSet = false →
      (startupLoop envs input st).firstReqSet = true →
      ∃ r, (startupLoop envs input st).firstReq = some r := by
  induction input with
  | nil => intro st h0 h1; simp [startupLoop, h0] at h1
  | cons ev rest ih =>
    intro st h0 h1
    cases ev with
    | empty => exact ih st h0 h1
    | req r =>
      cases herr : (initializeMetricBatcher (envs st.inits.length)).err with
      | none =>
        refine ⟨r, ?_⟩
        simp [startupLoop, herr]
      | some e =>
        simp only [startupLoop, herr] at h1 ⊢
        exact ih _ h0 h1

/-- What holds of the buffers sent, whatever the input and the number of steps,
given that adding to a pending buffer makes it non-empty and that a new
pending buffer is empty (for the check `IsEmpty`): every copy request sent
carries a buffer that `IsEmpty` rejects and that holds at least one added
value; a buffer holds a nil among its values only once the input channel is
closed and drained, and a buffer without a nil holds a request; and `flush`
on an empty pending buffer returns the worker unchanged. -/
theorem sent_buffers_hold_added_values {Req : Type} (IsEmpty IsFull : pendingBuffer Req → Bool)
    (envs : Nat → InitEnv) (input : List (Recv Req)) (fuel : Nat)
    (hadd : ∀ p req, IsEmpty (pendingBuffer.addReq p req) = false)
    (hnew : IsEmpty NewPendingBuffer = true) :
    (∀ cr ∈ (runMetricBatcher IsEmpty IsFull envs input fuel).toCopiers,
      IsEmpty cr.buffer = false ∧ cr.buffer.reqs ≠ [] ∧
      (none ∈ cr.buffer.reqs →
        ∀ w, (runMetricBatcher IsEmpty IsFull envs input fuel).worker = some w →
          w.h.input = []) ∧
      (none ∉ cr.buffer.reqs → ∃ r, some r ∈ cr.buffer.reqs)) ∧
    (∀ h : metricBatcher Req, IsEmpty h.pending = true → h.flush IsEmpty = h) := by
  refine ⟨?_, ?_⟩
  · intro cr hcr
    unfold runMetricBatcher at hcr ⊢
    generalize hst : startupLoop envs input
      { tableName := [], firstReq := none, firstReqSet := false, input := input,
        reports := [], inits := [] } = st at hcr ⊢
    cases hset : st.firstReqSet with
    | false =>
      simp [afterStartup, hset, RunResult.toCopiers] at hcr
    | true =>
      obtain ⟨r, hr⟩ : ∃ r, st.firstReq = some r := by
        rw [← hst]
        apply startupLoop_firstReq envs input _ rfl
        rw [hst]; exact hset
      have hw : (afterStartup IsEmpty IsFull fuel st).worker =
          some (Worker.run IsEmpty IsFull fuel
            { h := (metricBatcher.handleReq IsFull
                ({ input := st.input, pending := NewPendingBuffer,
                   metricTableName := st.tableName, toCopiers := [] } : metricBatcher Req)
                (some r)).1
              pc := .loop }) := by
        simp [afterStartup, hset, hr]
      have hinit1 : (metricBatcher.handleReq IsFull
          ({ input := st.input, pending := NewPendingBuffer,
             metricTableName := st.tableName, toCopiers := [] } : metricBatcher Req)
          (some r)).1.NoEmptySent IsEmpty :=
        noEmptySent_handleReq IsEmpty IsFull hadd hnew _ _
          ⟨fun cr hcr => absurd hcr (List.not_mem_nil cr), Or.inl rfl⟩
      have hinit2 : (metricBatcher.handleReq IsFull
          ({ input := st.input, pending := NewPendingBuffer,
             metricTableName := st.tableName, toCopiers := [] } : metricBatcher Req)
          (some r)).1.NilOnlyClosed :=
        nilOnlyClosed_handleReq_some IsFull _ r
          (by simp [metricBatcher.added, NewPendingBuffer])
      have hn1 := noEmptySent_run IsEmpty IsFull hadd hnew fuel
        { h := (metricBatcher.handleReq IsFull
            ({ input := st.input, pending := NewPendingBuffer,
               metricTableName := st.tableName, toCopiers := [] } : metricBatcher Req)
            (some r)).1
          pc := .loop } hinit1
      have hn2 := nilOnlyClosed_run IsEmpty IsFull fuel
        { h := (metricBatcher.handleReq IsFull
            ({ input := st.input, pending := NewPendingBuffer,
               metricTableName := st.tableName, toCopiers := [] } : metricBatcher Req)
            (some r)).1
          pc := .loop } hinit2
      simp only [RunResult.toCopiers, hw] at hcr
      obtain ⟨c1, c2⟩ := hn1.1 cr hcr
      refine ⟨c1, c2, ?_, ?_⟩
      · intro hnil w hw'
        rw [hw] at hw'
        injection hw' with hw'
        subst hw'
        apply hn2
        simp only [metricBatcher.added, List.mem_append, List.mem_flatMap]
        exact Or.inl ⟨cr, hcr, hnil⟩
      · intro hnil
        obtain ⟨x, hx⟩ := List.exists_mem_of_ne_nil _ c2
        cases x with
        | none => exact absurd hx hnil
        | some r => exact ⟨r, hx⟩
  · intro h he
    simp [metricBatcher.flush, he]

/-! ### The metric batcher: the non-blocking receive on a closed channel -/

/-- In the hot-receive loop on a closed and drained channel every
non-blocking receive yields nil, which is handled as a request, and the loop
does not end. -/
theorem closed_hotReceive_step {Req : Type} (IsEmpty IsFull : pendingBuffer Req → Bool)
    (hnew : IsFull NewPendingBuffer = false) (w : Worker Req)
    (hpc : w.pc = .hotReceive) (hin : w.h.input = []) :
    (w.step IsEmpty IsFull).pc = .hotReceive ∧ (w.step IsEmpty IsFull).h.input = [] ∧
    (w.step IsEmpty IsFull).h.added = w.h.added ++ [none] := by
  have hnb : w.h.nonblockingHandleReq IsFull =
      ((metricBatcher.handleReq IsFull { w.h with input := [] } none).1, true) := by
    simp [metricBatcher.nonblockingHandleReq, hin, recvNonblocking]
  obtain ⟨a1, a2⟩ := added_handleReq IsFull ({ w.h with input := [] } : metricBatcher Req) none
  have hfull : IsFull (metricBatcher.handleReq IsFull
      ({ w.h with input := [] } : metricBatcher Req) none).1.pending = false := by
    have key : metricBatcher.handleReq IsFull ({ w.h with input := [] } : metricBatcher Req)
        none =
        if IsFull (w.h.pending.addReq none) = true then
          (({ w.h with input := [], pending := w.h.pending.addReq none } :
            metricBatcher Req).flushPending, true)
        else ({ w.h with input := [], pending := w.h.pending.addReq none }, false) := rfl
    rw [key]
    by_cases hf : IsFull (w.h.pending.addReq none) = true
    · rw [if_pos hf]; exact hnew
    · rw [if_neg hf]; simpa using hf
  have hstep : w.step IsEmpty IsFull =
      { h := (metricBatcher.handleReq IsFull ({ w.h with input := [] } : metricBatcher Req)
          none).1, pc := .hotReceive } := by
    unfold Worker.step
    rw [hpc]
    simp only [hnb, hfull]
    simp
  rw [hstep]
  exact ⟨rfl, a2, a1⟩

theorem closed_hotReceive_run {Req : Type} (IsEmpty IsFull : pendingBuffer Req → Bool)
    (hnew : IsFull NewPendingBuffer = false) (fuel : Nat) :
    ∀ w : Worker Req, w.pc = .hotReceive → w.h.input = [] →
      (Worker.run IsEmpty IsFull fuel w).pc = .hotReceive ∧
      (Worker.run IsEmpty IsFull fuel w).h.added = w.h.added ++ List.replicate fuel none := by
  induction fuel with
  | zero => intro w hpc _; exact ⟨hpc, by simp [Worker.run]⟩
  | succ n ih =>
    intro w hpc hin
    obtain ⟨s1, s2, s3⟩ := closed_hotReceive_step IsEmpty IsFull hnew w hpc hin
    obtain ⟨r1, r2⟩ := ih (w.step IsEmpty IsFull) s1 s2
    refine ⟨r1, ?_⟩
    show (Worker.run IsEmpty IsFull n (w.step IsEmpty IsFull)).h.added = _
    rw [r2, s3, List.replicate_succ, List.append_assoc]
    rfl

/-- C12, the code at the failing input: one request, 1, is sent and the channel
is closed while the worker still holds it in its pending buffer. The
non-blocking receive then yields nil on the closed channel and the worker
handles it as a request: whatever the number of steps, the steady loop has not
returned, every further step adds a nil to the pending buffer, and the copy
request sent after three additions holds request 1 and two nils. -/
theorem closed_channel_handled_as_request :
    (∀ fuel, (runMetricBatcher holdsNothing threeRequests envsOk
      [Recv.req 1] fuel).returned = false) ∧
    (∀ fuel, (runMetricBatcher holdsNothing threeRequests envsOk
      [Recv.req 1] (fuel + 1)).added = some 1 :: List.replicate fuel none) ∧
    (runMetricBatcher holdsNothing threeRequests envsOk
      [Recv.req 1] 3).toCopiers.map (fun c => c.buffer.reqs) = [[some 1, none, none]] := by
  have hrun : ∀ fuel, runMetricBatcher holdsNothing threeRequests envsOk [Recv.req 1] fuel =
      { reports := [], inits := [initializeMetricBatcher (envsOk 0)],
        worker := some (Worker.run holdsNothing threeRequests fuel
          { h := { input := [], pending := { reqs := [some 1] },
                   metricTableName := ascii "tbl", toCopiers := [] }, pc := .loop }) } := by
    intro fuel
    rfl
  have hstep : Worker.step holdsNothing threeRequests
      { h := { input := [], pending := { reqs := [some 1] },
               metricTableName := ascii "tbl", toCopiers := [] }, pc := .loop } =
      { h := { input := [], pending := { reqs := [some 1] },
               metricTableName := ascii "tbl", toCopiers := [] }, pc := .hotReceive } := by
    decide
  have hhot := fun fuel => closed_hotReceive_run holdsNothing threeRequests (by decide) fuel
    { h := { input := [], pending := { reqs := [some 1] },
             metricTableName := ascii "tbl", toCopiers := [] }, pc := .hotReceive } rfl rfl
  refine ⟨?_, ?_, by decide⟩
  · intro fuel
    rw [hrun]
    cases fuel with
    | zero => decide
    | succ n =>
      show decide ((Worker.run holdsNothing threeRequests n
        (Worker.step holdsNothing threeRequests _)).pc = Pc.returned) = false
      rw [hstep, (hhot n).1]
      decide
  · intro fuel
    rw [hrun]
    show (Worker.run holdsNothing threeRequests fuel
      (Worker.step holdsNothing threeRequests _)).h.added = _
    rw [hstep, (hhot fuel).2]
    rfl

end Promscale
